import Mathlib

/-!
Verification of `fas2ipa/users.py` (reconciliation engine for migrating user
accounts from FAS source realms into a FreeIPA target directory).

Python strings are modelled as `List Char` (code-point sequences), Python's
lexicographic string comparison as an explicit boolean function, dicts as
insertion-ordered association lists, and the FreeIPA client as an oracle of
tagged responses.  Mutable objects (the record dict handed to `migrate_user`)
are modelled by an explicit heap of dicts addressed by index, so that claims
about non-mutation of the caller's record are real statements about aliasing.
-/

set_option maxRecDepth 4000
set_option synthInstance.maxSize 1024

/-- A Python string as a list of unicode code points. -/
abbrev PyStr := List Char

/-- Python's `<` on strings: lexicographic comparison by code point. -/
def pyLtB : PyStr → PyStr → Bool
  | [], [] => false
  | [], _ :: _ => true
  | _ :: _, [] => false
  | a :: as, b :: bs =>
    if a.toNat < b.toNat then true
    else if b.toNat < a.toNat then false
    else pyLtB as bs

/-- Python's `>=` on strings, i.e. `s >= t` iff `not (s < t)` with the total
lexicographic order. Here `pyLeB t s` models the Python expression `s >= t`. -/
def pyLeB (t s : PyStr) : Bool := !(pyLtB s t)

/-- The lowercase ASCII alphabet, `string.ascii_lowercase` in the source. -/
def asciiLowercase : List Char := "abcdefghijklmnopqrstuvwxyz".data

/-- Python `str.replace("*", "\u0010ffff")` as executed by the source: the
escape `\u0010ffff` denotes the single character U+0010 followed by the four
literal characters `ffff`, so each `*` is replaced by that five-character
string (users.py line 33). -/
def starExpand : PyStr → PyStr
  | [] => []
  | c :: rest =>
    (if c = '*' then [Char.ofNat 0x10, 'f', 'f', 'f', 'f'] else [c]) ++ starExpand rest

/-- Modelled from the spec: the maximal-match expansion the spec describes,
replacing each wildcard `*` by the maximum Unicode code point U+10FFFF.  This
is the comparison definition for the refinement claim about
`_make_user_patterns`; the source definition is `starExpand`. -/
def starExpandSpecMax : PyStr → PyStr
  | [] => []
  | c :: rest =>
    (if c = '*' then [Char.ofNat 0x10FFFF] else [c]) ++ starExpandSpecMax rest

/-- `Users._make_user_patterns` (users.py lines 24-47).  `none` models the
uncaught `IndexError`/`ValueError` when `users_start_at` is empty or its first
character does not lower-case into the ASCII alphabet.  An empty `restrict`
list models both `None` and an empty sequence (both falsy in Python). -/
def makeUserPatterns (usersStartAt : Option PyStr) (restrictUsers : List PyStr) :
    Option (List PyStr) :=
  if restrictUsers ≠ [] then
    some (restrictUsers.filter fun pattern =>
      match usersStartAt with
      | none => true
      | some s => pyLeB s (starExpand pattern))
  else
    match usersStartAt with
    | none => some (asciiLowercase.map fun c => [c, '*'])
    | some s =>
      match s with
      | [] => none
      | c :: _ =>
        match asciiLowercase.findIdx? (· == c.toLower) with
        | none => none
        | some i =>
          some ((s :: (asciiLowercase.drop (i + 1)).map (fun d => [d])).map
            (fun p => p ++ ['*']))

/-- Modelled from the spec: `_make_user_patterns` as the spec words it for the
restrict case, filtering with the true maximal-match expansion `starExpandSpecMax`
instead of the source's `starExpand`. -/
def makeUserPatternsSpecMax (usersStartAt : Option PyStr) (restrictUsers : List PyStr) :
    Option (List PyStr) :=
  if restrictUsers ≠ [] then
    some (restrictUsers.filter fun pattern =>
      match usersStartAt with
      | none => true
      | some s => pyLeB s (starExpandSpecMax pattern))
  else
    makeUserPatterns usersStartAt []

/-- Case-sensitive glob matching as `fnmatch.fnmatchcase` behaves on the
pattern language this program generates and re-checks (literal characters,
`?`, and `*`; users.py line 126). -/
def globMatch : PyStr → PyStr → Bool
  | [], s => s.isEmpty
  | p :: ps, s =>
    if p = '*' then s.tails.any (fun t => globMatch ps t)
    else
      match s with
      | [] => false
      | c :: cs => if p = '?' then globMatch ps cs else (p = c) && globMatch ps cs

lemma globMatch_star_any (u : PyStr) : globMatch ['*'] u = true := by
  have h : ([] : PyStr) ∈ u.tails := by simp [List.mem_tails]
  simp only [globMatch, if_pos rfl]
  exact List.any_eq_true.mpr ⟨[], h, rfl⟩

lemma globMatch_append_star (s u : PyStr)
    (hs : ∀ ch ∈ s, ch ≠ '*' ∧ ch ≠ '?') :
    globMatch (s ++ ['*']) u = true ↔ s <+: u := by
  induction s generalizing u with
  | nil =>
    simp [globMatch_star_any, List.nil_prefix]
  | cons a s ih =>
    obtain ⟨ha1, ha2⟩ := hs a (List.mem_cons_self a s)
    cases u with
    | nil =>
      simp [globMatch, if_neg ha1]
    | cons c cs =>
      have hrest : ∀ ch ∈ s, ch ≠ '*' ∧ ch ≠ '?' :=
        fun ch hc => hs ch (List.mem_cons_of_mem a hc)
      simp [globMatch, if_neg ha1, if_neg ha2, ih cs hrest, List.cons_prefix_cons]

lemma pyLtB_append_self (s t : PyStr) : pyLtB (s ++ t) s = false := by
  induction s with
  | nil => cases t <;> simp [pyLtB]
  | cons a as ih => simp [pyLtB, ih]

lemma pyLeB_of_prefix {s u : PyStr} (h : s <+: u) : pyLeB s u = true := by
  obtain ⟨t, rfl⟩ := h
  simp [pyLeB, pyLtB_append_self]

lemma pyLtB_head_lt {c d : Char} (h : c.toNat < d.toNat) (us rest : PyStr) :
    pyLtB (d :: us) (c :: rest) = false := by
  have h1 : ¬ d.toNat < c.toNat := Nat.not_lt.mpr (Nat.le_of_lt h)
  simp [pyLtB, h1, h]

lemma alphaIdxIsSome : ∀ c ∈ asciiLowercase,
    (asciiLowercase.findIdx? (· == c.toLower)).isSome = true := by decide

lemma alphaGrid : ∀ c ∈ asciiLowercase, ∀ d ∈ asciiLowercase,
    (d ∈ asciiLowercase.drop ((asciiLowercase.findIdx? (· == c.toLower)).getD 27 + 1)
      ↔ c.toNat < d.toNat) := by decide

lemma alphaNoMeta : ∀ d ∈ asciiLowercase, d ≠ '*' ∧ d ≠ '?' := by decide

/-- C1 counterexample: with `startAt = "ab"` and empty `restrict`, the username
`"ac"` is `≥ "ab"` yet matches none of the returned glob patterns
(`["ab*", "b*", …, "z*"]`), so the pattern set does not cover every username
`≥ startAt`. -/
theorem C1_counterexample :
    pyLeB "ab".data "ac".data = true ∧
    makeUserPatterns (some "ab".data) [] ≠ none ∧
    ((makeUserPatterns (some "ab".data) []).getD []).all
      (fun p => !(globMatch p "ac".data)) = true := by
  refine ⟨by decide, by decide, by decide⟩

/-- C1 (amended): with empty `restrict` and a `startAt` whose first character
is a lowercase ASCII letter and which contains no glob metacharacters, the
returned patterns cover exactly the usernames that either extend `startAt`
literally or begin with a strictly later lowercase letter; every username
matching some pattern is `≥ startAt` (so the glob post-filter excludes all
usernames `< startAt`), but usernames `≥ startAt` that share the first letter
of `startAt` without extending it match no pattern. -/
theorem C1_amended (c : Char) (rest u : PyStr) (pats : List PyStr)
    (hc : c ∈ asciiLowercase)
    (hmeta : ∀ ch ∈ c :: rest, ch ≠ '*' ∧ ch ≠ '?')
    (hp : makeUserPatterns (some (c :: rest)) [] = some pats) :
    ((∃ p ∈ pats, globMatch p u = true) ↔
      ((c :: rest) <+: u ∨ ∃ d us, u = d :: us ∧ d ∈ asciiLowercase ∧ c.toNat < d.toNat))
    ∧ ((∃ p ∈ pats, globMatch p u = true) → pyLeB (c :: rest) u = true) := by
  obtain ⟨i, hi⟩ := Option.isSome_iff_exists.mp (alphaIdxIsSome c hc)
  have hpats : pats =
      ((c :: rest) :: (asciiLowercase.drop (i + 1)).map (fun d => [d])).map
        (fun p => p ++ ['*']) := by
    simp only [makeUserPatterns, ne_eq, not_true_eq_false, if_false, hi] at hp
    exact (Option.some.inj hp).symm
  have hgrid : ∀ d, d ∈ asciiLowercase.drop (i + 1) ↔
      (d ∈ asciiLowercase ∧ c.toNat < d.toNat) := by
    intro d
    constructor
    · intro hd
      have hda : d ∈ asciiLowercase := List.mem_of_mem_drop hd
      refine ⟨hda, (alphaGrid c hc d hda).mp ?_⟩
      rw [hi]
      exact hd
    · intro ⟨hda, hlt⟩
      have := (alphaGrid c hc d hda).mpr hlt
      rw [hi] at this
      exact this
  have hiff : (∃ p ∈ pats, globMatch p u = true) ↔
      ((c :: rest) <+: u ∨ ∃ d us, u = d :: us ∧ d ∈ asciiLowercase ∧
        c.toNat < d.toNat) := by
    constructor
    · rintro ⟨p, hpmem, hpm⟩
      rw [hpats] at hpmem
      simp only [List.mem_map, List.mem_cons] at hpmem
      obtain ⟨q, hq, rfl⟩ := hpmem
      rcases hq with rfl | hq
      · exact Or.inl ((globMatch_append_star _ u hmeta).mp hpm)
      · obtain ⟨d, hd, rfl⟩ := hq
        obtain ⟨hda, hlt⟩ := (hgrid d).mp hd
        obtain ⟨hd1, hd2⟩ := alphaNoMeta d hda
        cases u with
        | nil =>
          simp [List.cons_append, List.nil_append, globMatch, if_neg hd1] at hpm
        | cons e es =>
          simp only [List.cons_append, List.nil_append, globMatch, if_neg hd1,
            if_neg hd2, Bool.and_eq_true, decide_eq_true_eq] at hpm
          exact Or.inr ⟨e, es, rfl, hpm.1 ▸ hda, hpm.1 ▸ hlt⟩
    · rintro (hpre | ⟨d, us, rfl, hda, hlt⟩)
      · refine ⟨(c :: rest) ++ ['*'], ?_, (globMatch_append_star _ u hmeta).mpr hpre⟩
        rw [hpats]
        exact List.mem_map_of_mem _ (List.mem_cons_self _ _)
      · refine ⟨[d] ++ ['*'], ?_, ?_⟩
        · rw [hpats]
          exact List.mem_map_of_mem _
            (List.mem_cons_of_mem _ (List.mem_map_of_mem _ ((hgrid d).mpr ⟨hda, hlt⟩)))
        · obtain ⟨hd1, hd2⟩ := alphaNoMeta d hda
          simp [globMatch, if_neg hd1, if_neg hd2, globMatch_star_any]
  refine ⟨hiff, fun hmatch => ?_⟩
  rcases hiff.mp hmatch with hpre | ⟨d, us, rfl, _, hlt⟩
  · exact pyLeB_of_prefix hpre
  · simp [pyLeB, pyLtB_head_lt hlt]

/-- C1 amended witness: instantiating the amended coverage theorem at
`startAt = "ab"` and username `"abc"` (which extends `startAt`). -/
theorem C1_amended_witness :
    ∃ p ∈ (makeUserPatterns (some "ab".data) []).getD [], globMatch p "abc".data = true :=
  (C1_amended 'a' "b".data "abc".data ((makeUserPatterns (some "ab".data) []).getD [])
    (by decide) (by decide) (by decide)).1.mpr (Or.inl (by decide))

/-- C4: at `restrict = ["a*"]`, `startAt = "ab"`, the source's wildcard
expansion (the Python escape `\u0010ffff`, i.e. U+0010 followed by `"ffff"`)
makes the maximal match of `"a*"` sort before `"ab"`, so the pattern is
dropped, whereas the expansion the claim describes (U+10FFFF) would keep it:
the code disagrees with the claim at this input. -/
theorem C4_divergence :
    makeUserPatterns (some "ab".data) ["a*".data] = some [] ∧
    makeUserPatternsSpecMax (some "ab".data) ["a*".data] = some ["a*".data] ∧
    pyLeB "ab".data (starExpand "a*".data) = false ∧
    pyLeB "ab".data (starExpandSpecMax "a*".data) = true := by
  refine ⟨by decide, by decide, by decide, by decide⟩

/-- Python `email_address.rsplit("@", 1)` when the result is unpacked into
`mailbox, domain` (users.py line 572): splits at the last `@`; `none` models
the uncaught `ValueError` when the string holds no `@`. -/
def rsplitLast : PyStr → Option (PyStr × PyStr)
  | [] => none
  | c :: rest =>
    match rsplitLast rest with
    | some (m, d) => some (c :: m, d)
    | none => if c = '@' then some ([], rest) else none

/-- Adding a realm name to the realm set of an email address in the
insertion-ordered `email_addresses_to_fas` defaultdict-of-sets (users.py
lines 567-569); the set is modelled as a duplicate-free list. -/
def ddAddSet (m : List (PyStr × List String)) (k : PyStr) (v : String) :
    List (PyStr × List String) :=
  match m with
  | [] => [(k, [v])]
  | (k', vs) :: rest =>
    if k' = k then (k', if v ∈ vs then vs else vs ++ [v]) :: rest
    else (k', vs) :: ddAddSet rest k v

/-- Building `email_addresses_to_fas` from the per-realm records of one
duplicated username: the input pairs each realm name with the record's email
(users.py lines 567-569). -/
def buildEmailMap (pairs : List (String × PyStr)) : List (PyStr × List String) :=
  pairs.foldl (fun m p => ddAddSet m p.2 p.1) []

/-- One conflict-detail record appended to the per-username `user_conflicts`
mapping in `find_user_conflicts`, tagged by conflict kind. -/
inductive UserConflict
  | circularEmail (fasName : String) (emailAddress : PyStr)
  | emailPointingToOtherFas (tgtFasName : String) (emailAddress : PyStr)
      (srcFasNames : List String)
  | emailAddressConflicts (emailAddress : PyStr) (fasNames : List String)
deriving DecidableEq

/-- The body of the self-referential branch for one email address (users.py
lines 575-592): record a `circular_email` conflict and drop the referenced
realm when the email's realm set holds it, then record an
`email_pointing_to_other_fas` conflict and clear the set when realms remain. -/
def processEmailCore (domainFasName : String) (email : PyStr)
    (fasNames : List String) : List UserConflict × List String :=
  let step1 :=
    if domainFasName ∈ fasNames then
      ([UserConflict.circularEmail domainFasName email],
        fasNames.erase domainFasName)
    else ([], fasNames)
  if step1.2 ≠ [] then
    (step1.1 ++
      [UserConflict.emailPointingToOtherFas domainFasName email step1.2], [])
  else
    (step1.1, step1.2)

/-- The self-referential-email step for a single email address of a duplicated
username (users.py lines 571-592): split off the domain, look up the realm it
designates, and when the mailbox equals the username run `processEmailCore`.
Returns the conflicts appended and the email's realm set afterwards. -/
def processEmail (emailDomainsFas : List (PyStr × String)) (username email : PyStr)
    (fasNames : List String) : Option (List UserConflict × List String) :=
  match rsplitLast email with
  | none => none
  | some (mailbox, domain) =>
    match (emailDomainsFas.lookup domain : Option String) with
    | none => some ([], fasNames)
    | some domainFasName =>
      if mailbox = username then some (processEmailCore domainFasName email fasNames)
      else some ([], fasNames)

/-- The loop of the self-referential-email step over all email addresses of a
duplicated username in insertion order (users.py lines 571-592), returning all
conflicts recorded in step 2 and the updated realm sets. -/
def processUserEmails (emailDomainsFas : List (PyStr × String)) (username : PyStr) :
    List (PyStr × List String) → Option (List UserConflict × List (PyStr × List String))
  | [] => some ([], [])
  | (email, fasNames) :: rest =>
    match processEmail emailDomainsFas username email fasNames with
    | none => none
    | some (cs, fs') =>
      match processUserEmails emailDomainsFas username rest with
      | none => none
      | some (csRest, rest') => some (cs ++ csRest, (email, fs') :: rest')

/-- The complete per-username conflict classification of
`find_user_conflicts` (users.py lines 560-607): the self-referential-email
step followed by the `email_address_conflicts` step, which fires when more
than one distinct email address still has a non-empty realm set and then
appends one entry for every email address of the username. -/
def userConflictsFor (emailDomainsFas : List (PyStr × String)) (username : PyStr)
    (emails : List (PyStr × List String)) : Option (List UserConflict) :=
  match processUserEmails emailDomainsFas username emails with
  | none => none
  | some (cs, emails') =>
    some (cs ++
      (if 1 < (emails'.filter (fun e => e.2 ≠ [])).length then
        emails'.map (fun e => UserConflict.emailAddressConflicts e.1 e.2)
      else []))

lemma processEmailCore_cases (r : String) (email : PyStr) (f : List String) :
    (r ∈ f ∧ f.erase r ≠ [] ∧ processEmailCore r email f =
      ([UserConflict.circularEmail r email,
        UserConflict.emailPointingToOtherFas r email (f.erase r)], []))
    ∨ (r ∈ f ∧ f.erase r = [] ∧
        processEmailCore r email f = ([UserConflict.circularEmail r email], []))
    ∨ (r ∉ f ∧ f ≠ [] ∧
        processEmailCore r email f =
          ([UserConflict.emailPointingToOtherFas r email f], []))
    ∨ (r ∉ f ∧ f = [] ∧ processEmailCore r email f = ([], [])) := by
  by_cases hr : r ∈ f
  · by_cases h2 : f.erase r = []
    · exact Or.inr (Or.inl ⟨hr, h2, by simp [processEmailCore, hr, h2]⟩)
    · exact Or.inl ⟨hr, h2, by simp [processEmailCore, hr, h2]⟩
  · by_cases h2 : f = []
    · exact Or.inr (Or.inr (Or.inr ⟨hr, h2, by simp [processEmailCore, hr, h2]⟩))
    · exact Or.inr (Or.inr (Or.inl ⟨hr, h2, by simp [processEmailCore, hr, h2]⟩))

lemma processEmail_no_addrConflict {doms : List (PyStr × String)} {u e : PyStr}
    {f : List String} {cs : List UserConflict} {f' : List String}
    (h : processEmail doms u e f = some (cs, f')) :
    ∀ e' fs', UserConflict.emailAddressConflicts e' fs' ∉ cs := by
  intro e' fs' hmem
  rcases hsp : rsplitLast e with _ | ⟨mb, dom⟩
  · simp [processEmail, hsp] at h
  · rcases hlk : (doms.lookup dom : Option String) with _ | r
    · simp only [processEmail, hsp, hlk, Option.some.injEq, Prod.mk.injEq] at h
      obtain ⟨h1, _⟩ := h
      subst h1
      exact absurd hmem (List.not_mem_nil _)
    · by_cases hmb : mb = u
      · simp only [processEmail, hsp, hlk, if_pos hmb, Option.some.injEq] at h
        rcases processEmailCore_cases r e f with ⟨_, _, hc⟩ | ⟨_, _, hc⟩ |
            ⟨_, _, hc⟩ | ⟨_, _, hc⟩ <;>
          (rw [hc] at h
           obtain ⟨h1, _⟩ := Prod.mk.injEq _ _ _ _ ▸ h
           subst h1
           simp_all)
      · simp only [processEmail, hsp, hlk, if_neg hmb, Option.some.injEq,
          Prod.mk.injEq] at h
        obtain ⟨h1, _⟩ := h
        subst h1
        exact absurd hmem (List.not_mem_nil _)

lemma processUserEmails_no_addrConflict {doms : List (PyStr × String)} {u : PyStr}
    {emails : List (PyStr × List String)} {cs : List UserConflict}
    {emails' : List (PyStr × List String)}
    (h : processUserEmails doms u emails = some (cs, emails')) :
    ∀ e' fs', UserConflict.emailAddressConflicts e' fs' ∉ cs := by
  induction emails generalizing cs emails' with
  | nil =>
    intro e' fs' hmem
    simp only [processUserEmails, Option.some.injEq, Prod.mk.injEq] at h
    obtain ⟨h1, _⟩ := h
    subst h1
    exact absurd hmem (List.not_mem_nil _)
  | cons p rest ih =>
    intro e' fs' hmem
    obtain ⟨em, fn⟩ := p
    simp only [processUserEmails] at h
    rcases h1 : processEmail doms u em fn with _ | ⟨c1, f1⟩ <;>
      simp only [h1] at h
    · exact Option.noConfusion h
    · rcases h2 : processUserEmails doms u rest with _ | ⟨c2, r2⟩ <;>
        simp only [h2] at h
      · exact Option.noConfusion h
      · simp only [Option.some.injEq, Prod.mk.injEq] at h
        obtain ⟨h3, _⟩ := h
        subst h3
        rcases List.mem_append.mp hmem with hm | hm
        · exact processEmail_no_addrConflict h1 e' fs' hm
        · exact ih h2 e' fs' hm

/-- C3 counterexample: username `alice` appears in realms A, B, C; realm A's
record carries the self-referential email `alice@b.example` (realm B's domain),
which step 2 empties while recording an `email_pointing_to_other_fas` conflict;
two distinct emails (`x@x.com`, `y@y.com`) still have non-empty realm sets, so
the `email_address_conflicts` step fires — and, contrary to the claim, it also
records an entry for `alice@b.example`, whose realm set was emptied in step 2. -/
theorem C3_counterexample :
    userConflictsFor [("b.example".data, "B")] "alice".data
      (buildEmailMap [("A", "alice@b.example".data), ("B", "x@x.com".data),
        ("C", "y@y.com".data)]) =
    some [UserConflict.emailPointingToOtherFas "B" "alice@b.example".data ["A"],
      UserConflict.emailAddressConflicts "alice@b.example".data [],
      UserConflict.emailAddressConflicts "x@x.com".data ["B"],
      UserConflict.emailAddressConflicts "y@y.com".data ["C"]] ∧
    UserConflict.emailAddressConflicts "alice@b.example".data [] ∈
      (userConflictsFor [("b.example".data, "B")] "alice".data
        (buildEmailMap [("A", "alice@b.example".data), ("B", "x@x.com".data),
          ("C", "y@y.com".data)])).getD [] := by
  refine ⟨by decide, by decide⟩

/-- C3 (amended): an `email_address_conflicts` entry is recorded if and only
if more than one distinct email address still has a non-empty realm set after
the self-referential-email step, and in that case exactly one entry is
recorded per email address of the username — including the email addresses
whose realm set was emptied in step 2, not only those with a non-empty set. -/
theorem C3_amended (doms : List (PyStr × String)) (username : PyStr)
    (emails : List (PyStr × List String)) (cs : List UserConflict)
    (emails' : List (PyStr × List String)) (out : List UserConflict)
    (h1 : processUserEmails doms username emails = some (cs, emails'))
    (h2 : userConflictsFor doms username emails = some out) :
    ((∃ e f, UserConflict.emailAddressConflicts e f ∈ out) ↔
      1 < (emails'.filter (fun e => e.2 ≠ [])).length)
    ∧ (1 < (emails'.filter (fun e => e.2 ≠ [])).length →
        ∀ p ∈ emails', UserConflict.emailAddressConflicts p.1 p.2 ∈ out) := by
  simp only [userConflictsFor, h1, Option.some.injEq] at h2
  subst h2
  constructor
  · constructor
    · rintro ⟨e, f, hm⟩
      rcases List.mem_append.mp hm with hc | ht
      · exact absurd hc (processUserEmails_no_addrConflict h1 e f)
      · by_cases hcond : 1 < (emails'.filter (fun e => e.2 ≠ [])).length
        · exact hcond
        · rw [if_neg hcond] at ht
          exact absurd ht (List.not_mem_nil _)
    · intro hcond
      cases emails' with
      | nil => simp at hcond
      | cons p rest =>
        refine ⟨p.1, p.2, List.mem_append_right _ ?_⟩
        rw [if_pos hcond]
        exact List.mem_map_of_mem _ (List.mem_cons_self _ _)
  · intro hcond p hp
    refine List.mem_append_right _ ?_
    rw [if_pos hcond]
    exact List.mem_map_of_mem _ hp

/-- C3 amended witness: a username with two distinct non-self-referential
emails, both with non-empty realm sets, gets an `email_address_conflicts`
entry for the first email. -/
theorem C3_amended_witness :
    UserConflict.emailAddressConflicts "a@a.com".data ["A"] ∈
      (userConflictsFor [] "u".data
        (buildEmailMap [("A", "a@a.com".data), ("B", "b@b.com".data)])).getD [] :=
  (C3_amended [] "u".data (buildEmailMap [("A", "a@a.com".data), ("B", "b@b.com".data)])
    [] [("a@a.com".data, ["A"]), ("b@b.com".data, ["B"])]
    ((userConflictsFor [] "u".data
      (buildEmailMap [("A", "a@a.com".data), ("B", "b@b.com".data)])).getD [])
    (by decide) (by decide)).2 (by decide)
    ("a@a.com".data, ["A"]) (by decide)

/-- C6: for a self-referential email (mailbox equals the username, domain
configured as realm `r`'s email domain), a `circular_email` conflict is
recorded iff `r` is in that email's realm set (and `r` is then removed), and
an `email_pointing_to_other_fas` conflict is recorded iff the realm set is
still non-empty after that removal (and is then cleared); in the scenario
where realm B's record carries `alice@realmB.example` with realm B's domain
`realmB.example` while realm A's record has an unrelated email, exactly one
`circular_email` conflict and nothing else is recorded for `alice`. -/
theorem C6_self_referential_email (doms : List (PyStr × String))
    (username email : PyStr) (fasNames removed : List String)
    (mailbox domain : PyStr) (r : String)
    (out : List UserConflict) (after : List String)
    (hsplit : rsplitLast email = some (mailbox, domain))
    (hmb : mailbox = username)
    (hdom : (doms.lookup domain : Option String) = some r)
    (hrm : removed = if r ∈ fasNames then fasNames.erase r else fasNames)
    (hrun : processEmail doms username email fasNames = some (out, after)) :
    (((UserConflict.circularEmail r email ∈ out) ↔ r ∈ fasNames)
      ∧ ((∃ src, UserConflict.emailPointingToOtherFas r email src ∈ out) ↔ removed ≠ [])
      ∧ (removed ≠ [] →
          UserConflict.emailPointingToOtherFas r email removed ∈ out ∧ after = [])
      ∧ (removed = [] → after = removed))
    ∧ userConflictsFor [("realmB.example".data, "B")] "alice".data
        (buildEmailMap [("A", "other@example.org".data),
          ("B", "alice@realmB.example".data)]) =
      some [UserConflict.circularEmail "B" "alice@realmB.example".data] := by
  subst hmb
  simp only [processEmail, hsplit, hdom, eq_self_iff_true, if_true,
    Option.some.injEq] at hrun
  refine ⟨?_, by decide⟩
  rcases processEmailCore_cases r email fasNames with ⟨hr, h2, hc⟩ | ⟨hr, h2, hc⟩ |
      ⟨hr, h2, hc⟩ | ⟨hr, h2, hc⟩ <;>
    (rw [hc] at hrun
     obtain ⟨ho, ha⟩ := Prod.mk.injEq _ _ _ _ ▸ hrun
     subst ho
     subst ha)
  · rw [if_pos hr] at hrm
    subst hrm
    refine ⟨by simp [hr], ?_, fun _ => ⟨by simp, rfl⟩, fun hremoved => absurd hremoved h2⟩
    exact iff_of_true ⟨fasNames.erase r, by simp⟩ h2
  · rw [if_pos hr] at hrm
    subst hrm
    refine ⟨by simp [hr], ?_, fun hne => absurd h2 hne, fun _ => h2.symm⟩
    refine iff_of_false ?_ (by simp [h2])
    rintro ⟨src, hsrc⟩
    simp at hsrc
  · rw [if_neg hr] at hrm
    subst hrm
    refine ⟨by simp [hr], ?_, fun _ => ⟨by simp, rfl⟩, fun hremoved => absurd hremoved h2⟩
    exact iff_of_true ⟨removed, by simp⟩ h2
  · rw [if_neg hr] at hrm
    subst hrm
    subst h2
    refine ⟨by simp [hr], ?_, fun hne => absurd rfl hne, fun _ => rfl⟩
    refine iff_of_false ?_ (by simp)
    rintro ⟨src, hsrc⟩
    simp at hsrc

/-- C6 witness: instantiating the self-referential-email theorem at a record
whose email `bob@d.com` designates realm `R` where `bob` is registered, with
realm set `[R]`: the circular conflict is recorded. -/
theorem C6_self_referential_email_witness :
    UserConflict.circularEmail "R" "bob@d.com".data ∈
      [UserConflict.circularEmail "R" "bob@d.com".data] :=
  (C6_self_referential_email [("d.com".data, "R")] "bob".data "bob@d.com".data
    ["R"] [] "bob".data "d.com".data "R"
    [UserConflict.circularEmail "R" "bob@d.com".data] []
    (by decide) rfl (by decide) (by decide) (by decide)).1.1.mpr (by decide)

/-- Modelled from the spec: the `Status` enum of `status.py` (not under
`src/`), whose members `ADDED`, `UPDATED`, `UNMODIFIED`, `SKIPPED`, `FAILED`
and `REMOVED` are the ones `users.py` uses; the spec's `MigrationStatus` lists
ADDED, UPDATED, UNMODIFIED, SKIPPED, FAILED as the per-user outcomes. -/
inductive Status
  | ADDED
  | UPDATED
  | UNMODIFIED
  | SKIPPED
  | FAILED
  | REMOVED
deriving DecidableEq

/-- Stable insertion of one string into a sorted list, auxiliary for
`pySorted`. -/
def insertSorted (x : PyStr) : List PyStr → List PyStr
  | [] => [x]
  | y :: ys => if pyLtB y x then y :: insertSorted x ys else x :: y :: ys

/-- Python `sorted` on a collection of strings (used for the reported member
sets, users.py lines 456 and 514). -/
def pySorted : List PyStr → List PyStr
  | [] => []
  | x :: xs => insertSorted x (pySorted xs)

/-- The member category for `add_users_to_groups` (users.py line 393). -/
inductive MemberCategory
  | members
  | sponsors
deriving DecidableEq

/-- The payload of a FreeIPA `ValidationError`: `e.message[member_type]["user"]`
for `member_type` in `("member", "membermanager")` is a list of
`(username, message)` pairs; `none` models a missing key (the `KeyError`
branch that the source skips, users.py lines 429-432). -/
structure ValidationErr where
  member : Option (List (PyStr × PyStr))
  membermanager : Option (List (PyStr × PyStr))
deriving DecidableEq

/-- Outcome of the `ipa.group_add_member` / `ipa.group_remove_member` call for
one chunk, as raised by the python_freeipa client. -/
inductive GroupCallResp
  | ok
  | validationErr (e : ValidationErr)
  | notFound
  | otherExc
deriving DecidableEq

/-- Outcome of the raw `group_add_member_manager` request for the sponsors
category (users.py lines 419-425): a result carrying the
`result["failed"]` structure, or a raised exception. -/
inductive SponsorResp
  | result (failed : ValidationErr)
  | notFound
  | otherExc
deriving DecidableEq

/-- The per-chunk directory responses, one field per call site the chunk loop
can issue. -/
structure AddChunkOracle where
  membersCall : GroupCallResp
  sponsorsCall : SponsorResp
deriving DecidableEq

/-- The exception observed by the `try` block of the add-chunk loop
(users.py lines 413-425): for sponsors the source itself raises a
`ValidationError` when `result["failed"]["membermanager"]["user"]` is
non-empty, and a missing key there raises a `KeyError` caught by the final
bare `except Exception`. -/
def addTryOutcome (cat : MemberCategory) (orc : AddChunkOracle) : GroupCallResp :=
  match cat with
  | .members => orc.membersCall
  | .sponsors =>
    match orc.sponsorsCall with
    | .result failed =>
      match failed.membermanager with
      | none => .otherExc
      | some l => if l ≠ [] then .validationErr failed else .ok
    | .notFound => .notFound
    | .otherExc => .otherExc

/-- What one chunk of `add_users_to_groups` / `remove_users_from_groups`
reports: per-member failure messages, whether a batch-level failure was
printed, the changed-member set printed via the `try` statement's `else`
block (`none` when that block did not run), the final value of the local
`added`/`removed` set, and the group name passed to the directory call. -/
structure ChunkReport where
  memberFailures : List (PyStr × PyStr)
  batchFailed : Bool
  changedReported : Option (List PyStr)
  changedFinal : List PyStr
  calledGroup : PyStr
deriving DecidableEq

/-- The group name `add_users_to_groups` passes to the directory call: the
delta key exactly as given (users.py lines 415 and 420). -/
def addMemberCallGroup (group : PyStr) : PyStr := group

/-- The group name `remove_users_from_groups` passes to the directory call:
the globally-configured `config["groups"]["prefix"]` prepended to the delta
key (users.py line 480). -/
def removeMemberCallGroup (groupsPrefixCfg group : PyStr) : PyStr :=
  groupsPrefixCfg ++ group

/-- The error-pruning loop shared by the add and remove chunk handlers
(users.py lines 433-441 and 491-499): walk the per-member errors, dropping
members whose message is the idempotence message from the changed set and
collecting the rest as failures; Python's `set.remove` raises an uncaught
`KeyError` when the member is absent, modelled as `none`. -/
def pruneErrors (idempotenceMsg : PyStr) :
    List (PyStr × PyStr) → List PyStr → List (PyStr × PyStr) →
    Option (List PyStr × List (PyStr × PyStr))
  | [], changed, failures => some (changed, failures)
  | (usr, msg) :: rest, changed, failures =>
    if msg = idempotenceMsg then
      if usr ∈ changed then pruneErrors idempotenceMsg rest (changed.erase usr) failures
      else none
    else pruneErrors idempotenceMsg rest changed (failures ++ [(usr, msg)])

/-- One chunk of `Users.add_users_to_groups` (users.py lines 409-459):
nominal success reports the whole chunk as added; a `ValidationError` prunes
already-members and logs other members as failures — and, because the
reporting `print_status(Status.ADDED, …)` sits in the `try` statement's
`else` block, nothing is reported as added on that path; `NotFound` and any
other exception log a batch-level failure. -/
def processAddChunk (cat : MemberCategory) (orc : AddChunkOracle)
    (group : PyStr) (chunk : List PyStr) : Option ChunkReport :=
  let added := chunk.eraseDups
  match addTryOutcome cat orc with
  | .ok =>
    some { memberFailures := [], batchFailed := false,
           changedReported := if added ≠ [] then some (pySorted added) else none,
           changedFinal := pySorted added,
           calledGroup := addMemberCallGroup group }
  | .validationErr e =>
    let errors := (e.member.getD []) ++ (e.membermanager.getD [])
    match pruneErrors "This entry is already a member".data errors added [] with
    | none => none
    | some (added', failures) =>
      some { memberFailures := failures, batchFailed := false,
             changedReported := none,
             changedFinal := pySorted added',
             calledGroup := addMemberCallGroup group }
  | .notFound =>
    some { memberFailures := [], batchFailed := true, changedReported := none,
           changedFinal := pySorted added, calledGroup := addMemberCallGroup group }
  | .otherExc =>
    some { memberFailures := [], batchFailed := true, changedReported := none,
           changedFinal := pySorted added, calledGroup := addMemberCallGroup group }

/-- One chunk of `Users.remove_users_from_groups` (users.py lines 474-517):
the same structure as the add path, with the not-a-member idempotence message
and the globally-prefixed group name in the directory call. -/
def processRemoveChunk (groupsPrefixCfg : PyStr) (resp : GroupCallResp)
    (group : PyStr) (chunk : List PyStr) : Option ChunkReport :=
  let removed := chunk.eraseDups
  match resp with
  | .ok =>
    some { memberFailures := [], batchFailed := false,
           changedReported := if removed ≠ [] then some (pySorted removed) else none,
           changedFinal := pySorted removed,
           calledGroup := removeMemberCallGroup groupsPrefixCfg group }
  | .validationErr e =>
    let errors := (e.member.getD []) ++ (e.membermanager.getD [])
    match pruneErrors "This entry is not a member".data errors removed [] with
    | none => none
    | some (removed', failures) =>
      some { memberFailures := failures, batchFailed := false,
             changedReported := none,
             changedFinal := pySorted removed',
             calledGroup := removeMemberCallGroup groupsPrefixCfg group }
  | .notFound =>
    some { memberFailures := [], batchFailed := true, changedReported := none,
           changedFinal := pySorted removed,
           calledGroup := removeMemberCallGroup groupsPrefixCfg group }
  | .otherExc =>
    some { memberFailures := [], batchFailed := true, changedReported := none,
           changedFinal := pySorted removed,
           calledGroup := removeMemberCallGroup groupsPrefixCfg group }

/-- C2: an add-membership chunk of 5 users where the directory reports 2 as
already members raises no failure (the already-member errors are pruned, no
member-level or batch-level failure is printed) — but, contrary to the claim,
the 3 actually-added users are reported nowhere: the `Status.ADDED` report
sits in the `try` statement's `else` block, which Python skips once a
`ValidationError` was caught, so `changedReported` is `none` even though the
code's own pruned `added` set is exactly the other 3 users. -/
theorem C2_divergence :
    processAddChunk MemberCategory.members
      { membersCall := GroupCallResp.validationErr
          { member := some [("u4".data, "This entry is already a member".data),
              ("u5".data, "This entry is already a member".data)],
            membermanager := none },
        sponsorsCall := SponsorResp.otherExc }
      "sysadmin".data ["u1".data, "u2".data, "u3".data, "u4".data, "u5".data] =
    some { memberFailures := [], batchFailed := false,
           changedReported := none,
           changedFinal := ["u1".data, "u2".data, "u3".data],
           calledGroup := "sysadmin".data } := by decide

/-- C10: `remove_users_from_groups` prepends the global
`config["groups"]["prefix"]` to the delta key before the directory call while
`add_users_to_groups` passes the delta key (which already carries the
per-realm prefix) unchanged, so with a non-empty global prefix the removal
call targets a different directory group name than the addition call for the
same key. -/
theorem C10_group_name_mismatch (groupsPrefixCfg fasPrefixStr gname key : PyStr)
    (hkey : key = fasPrefixStr ++ gname)
    (hne : groupsPrefixCfg ≠ []) :
    addMemberCallGroup key = key ∧
    removeMemberCallGroup groupsPrefixCfg key = groupsPrefixCfg ++ (fasPrefixStr ++ gname) ∧
    removeMemberCallGroup groupsPrefixCfg key ≠ addMemberCallGroup key := by
  subst hkey
  refine ⟨rfl, rfl, fun h => ?_⟩
  have hlen := congrArg List.length h
  simp only [removeMemberCallGroup, addMemberCallGroup, List.length_append] at hlen
  have h0 : groupsPrefixCfg.length = 0 := by omega
  exact hne (List.length_eq_zero.mp h0)

/-- C10 witness: with global prefix `fas-` and delta key `realm-g` (per-realm
prefix `realm-` on group `g`), the removal call targets `fas-realm-g` while
the addition call targets `realm-g`. -/
theorem C10_group_name_mismatch_witness :
    removeMemberCallGroup "fas-".data "realm-g".data ≠
      addMemberCallGroup "realm-g".data :=
  (C10_group_name_mismatch "fas-".data "realm-".data "g".data "realm-g".data
    (by decide) (by decide)).2.2

/-- One value of the `group_roles` mapping of a FAS record (users.py
lines 147-165): the group id (`none` models `None`), the role status and the
role type. -/
structure GroupRole where
  groupId : Option Nat
  roleStatus : PyStr
  roleType : PyStr
deriving DecidableEq

/-- The parts of a FAS record that `_push_users` reads around the call to
`migrate_user`: the username, the `group_roles` mapping and the names of the
`memberships` entries (users.py lines 125, 147, 167). -/
structure PushPerson where
  username : PyStr
  groupRoles : List (PyStr × GroupRole)
  membershipNames : List PyStr
deriving DecidableEq

/-- The per-realm configuration `_push_users` consults: the group ignore
list, the per-realm group-name prefix and the agreement definitions
`(name, signed_groups)` (users.py lines 118, 149, 153, 168). -/
structure FasConf where
  groupIgnore : List PyStr
  groupPrefixStr : PyStr
  agreementDefs : List (PyStr × List PyStr)
deriving DecidableEq

/-- Appending one username to a `defaultdict(list)` keyed by group or
agreement name (users.py lines 103-106, 155, 159, 163, 171). -/
def ddAppend (m : List (PyStr × List PyStr)) (k v : PyStr) :
    List (PyStr × List PyStr) :=
  match m with
  | [] => [(k, [v])]
  | (k', vs) :: rest =>
    if k' = k then (k', vs ++ [v]) :: rest else (k', vs) :: ddAppend rest k v

/-- The four delta accumulators `_push_users` builds across the whole run
(users.py lines 103-106). -/
structure PushAcc where
  members : List (PyStr × List PyStr)
  sponsors : List (PyStr × List PyStr)
  unapproved : List (PyStr × List PyStr)
  agreements : List (PyStr × List PyStr)
deriving DecidableEq

/-- The empty accumulators at the start of `_push_users`. -/
def emptyPushAcc : PushAcc := ⟨[], [], [], []⟩

/-- Recording one `group_roles` entry of a non-skipped user (users.py
lines 147-165): ignored groups and `None` group ids are skipped, the
per-realm prefix is prepended, approved roles join the member delta (and the
sponsor delta for administrator/sponsor role types), other roles join the
unapproved-removal delta. -/
def recordRole (conf : FasConf) (uname : PyStr) (acc : PushAcc)
    (gr : PyStr × GroupRole) : PushAcc :=
  if gr.1 ∈ conf.groupIgnore ∨ gr.2.groupId = none then acc
  else
    let groupname := conf.groupPrefixStr ++ gr.1
    if gr.2.roleStatus = "approved".data then
      let acc1 := { acc with members := ddAppend acc.members groupname uname }
      if gr.2.roleType = "administrator".data ∨ gr.2.roleType = "sponsor".data then
        { acc1 with sponsors := ddAppend acc1.sponsors groupname uname }
      else acc1
    else { acc with unapproved := ddAppend acc.unapproved groupname uname }

/-- One agreement definition checked for a non-skipped user (users.py
lines 168-173): the user signed it when the signed-groups set intersects the
user's membership group names. -/
def recordAgreementStep (p : PushPerson) (a : PushAcc) (ag : PyStr × List PyStr) :
    PushAcc :=
  if ag.2.any (fun g => p.membershipNames.contains g) then
    { a with agreements := ddAppend a.agreements ag.1 p.username }
  else a

/-- Recording the agreement signatures of a non-skipped user (users.py
lines 166-173). -/
def recordAgreements (conf : FasConf) (p : PushPerson) (acc : PushAcc) : PushAcc :=
  conf.agreementDefs.foldl (recordAgreementStep p) acc

/-- The body of the per-person loop of `_push_users` (users.py lines
124-173): skip the person when no glob pattern matches the username, skip
(counted as skipped) when a hard-skip conflict kind is flagged for the
username, otherwise migrate and, when the outcome is not `SKIPPED`, record
group roles and agreement signatures. -/
def processPushPerson (patterns : List PyStr) (conflicts : List (PyStr × List PyStr))
    (skipConflicts : List PyStr) (migrate : PushPerson → Status) (conf : FasConf)
    (acc : PushAcc) (p : PushPerson) : PushAcc :=
  if patterns.all (fun pat => !(globMatch pat p.username)) then acc
  else if ((conflicts.lookup p.username).getD []).any
      (fun c => skipConflicts.contains c) then acc
  else if migrate p ≠ Status.SKIPPED then
    recordAgreements conf p (p.groupRoles.foldl (recordRole conf p.username) acc)
  else acc

/-- Stable insertion of a person into a username-sorted list, auxiliary for
`sortUsersByName`. -/
def insertByName (p : PushPerson) : List PushPerson → List PushPerson
  | [] => [p]
  | q :: qs =>
    if pyLtB q.username p.username then q :: insertByName p qs else p :: q :: qs

/-- The stable `users.sort(key=lambda u: u["username"])` of `_push_users`
(users.py line 120). -/
def sortUsersByName : List PushPerson → List PushPerson
  | [] => []
  | p :: ps => insertByName p (sortUsersByName ps)

/-- The per-realm loop body of `_push_users` (users.py lines 113-173). -/
def pushRealm (patterns : List PyStr) (conflicts : List (PyStr × List PyStr))
    (skipConflicts : List PyStr) (migrate : PushPerson → Status) (conf : FasConf)
    (acc : PushAcc) (users : List PushPerson) : PushAcc :=
  (sortUsersByName users).foldl
    (processPushPerson patterns conflicts skipConflicts migrate conf) acc

/-- The delta accumulation of a whole `_push_users` run over all realms
(users.py lines 98-187), with `migrate_user` abstracted as an outcome
function. -/
def pushUsersDeltas (patterns : List PyStr) (conflicts : List (PyStr × List PyStr))
    (skipConflicts : List PyStr) (migrate : PushPerson → Status)
    (realms : List (FasConf × List PushPerson)) : PushAcc :=
  realms.foldl
    (fun acc rm => pushRealm patterns conflicts skipConflicts migrate rm.1 acc rm.2)
    emptyPushAcc

/-- All usernames stored in one delta mapping. -/
def mapUsernames (m : List (PyStr × List PyStr)) : List PyStr :=
  (m.map Prod.snd).flatten

/-- All usernames stored in any of the four delta accumulators. -/
def accUsernames (acc : PushAcc) : List PyStr :=
  mapUsernames acc.members ++ mapUsernames acc.sponsors ++
    mapUsernames acc.unapproved ++ mapUsernames acc.agreements

lemma mapUsernames_cons (k : PyStr) (vs : List PyStr)
    (rest : List (PyStr × List PyStr)) :
    mapUsernames ((k, vs) :: rest) = vs ++ mapUsernames rest := by
  simp [mapUsernames]

lemma mem_mapUsernames_ddAppend {m : List (PyStr × List PyStr)} {k v u : PyStr}
    (h : u ∈ mapUsernames (ddAppend m k v)) : u = v ∨ u ∈ mapUsernames m := by
  induction m with
  | nil =>
    simp [ddAppend, mapUsernames] at h
    exact Or.inl h
  | cons p rest ih =>
    obtain ⟨k', vs⟩ := p
    by_cases hk : k' = k
    · rw [ddAppend, if_pos hk, mapUsernames_cons] at h
      rw [mapUsernames_cons]
      rcases List.mem_append.mp h with h1 | h1
      · rcases List.mem_append.mp h1 with h2 | h2
        · exact Or.inr (List.mem_append_left _ h2)
        · simp at h2
          exact Or.inl h2
      · exact Or.inr (List.mem_append_right _ h1)
    · rw [ddAppend, if_neg hk, mapUsernames_cons] at h
      rw [mapUsernames_cons]
      rcases List.mem_append.mp h with h1 | h1
      · exact Or.inr (List.mem_append_left _ h1)
      · rcases ih h1 with h2 | h2
        · exact Or.inl h2
        · exact Or.inr (List.mem_append_right _ h2)

lemma mem_accUsernames_recordRole {conf : FasConf} {uname u : PyStr}
    {acc : PushAcc} {gr : PyStr × GroupRole}
    (h : u ∈ accUsernames (recordRole conf uname acc gr)) :
    u = uname ∨ u ∈ accUsernames acc := by
  unfold recordRole at h
  split at h
  · exact Or.inr h
  · split at h
    · split at h
      · simp only [accUsernames, List.mem_append] at h ⊢
        rcases h with ((h1 | h1) | h1) | h1
        · rcases mem_mapUsernames_ddAppend h1 with h2 | h2
          · exact Or.inl h2
          · exact Or.inr (Or.inl (Or.inl (Or.inl h2)))
        · rcases mem_mapUsernames_ddAppend h1 with h2 | h2
          · exact Or.inl h2
          · exact Or.inr (Or.inl (Or.inl (Or.inr h2)))
        · exact Or.inr (Or.inl (Or.inr h1))
        · exact Or.inr (Or.inr h1)
      · simp only [accUsernames, List.mem_append] at h ⊢
        rcases h with ((h1 | h1) | h1) | h1
        · rcases mem_mapUsernames_ddAppend h1 with h2 | h2
          · exact Or.inl h2
          · exact Or.inr (Or.inl (Or.inl (Or.inl h2)))
        · exact Or.inr (Or.inl (Or.inl (Or.inr h1)))
        · exact Or.inr (Or.inl (Or.inr h1))
        · exact Or.inr (Or.inr h1)
    · simp only [accUsernames, List.mem_append] at h ⊢
      rcases h with ((h1 | h1) | h1) | h1
      · exact Or.inr (Or.inl (Or.inl (Or.inl h1)))
      · exact Or.inr (Or.inl (Or.inl (Or.inr h1)))
      · rcases mem_mapUsernames_ddAppend h1 with h2 | h2
        · exact Or.inl h2
        · exact Or.inr (Or.inl (Or.inr h2))
      · exact Or.inr (Or.inr h1)

lemma mem_accUsernames_foldRoles {conf : FasConf} {uname u : PyStr}
    {roles : List (PyStr × GroupRole)} {acc : PushAcc}
    (h : u ∈ accUsernames (roles.foldl (recordRole conf uname) acc)) :
    u = uname ∨ u ∈ accUsernames acc := by
  induction roles generalizing acc with
  | nil => exact Or.inr h
  | cons gr rest ih =>
    rcases ih h with h1 | h1
    · exact Or.inl h1
    · exact mem_accUsernames_recordRole h1

lemma mem_accUsernames_recordAgreementStep {p : PushPerson} {u : PyStr}
    {acc : PushAcc} {ag : PyStr × List PyStr}
    (h : u ∈ accUsernames (recordAgreementStep p acc ag)) :
    u = p.username ∨ u ∈ accUsernames acc := by
  unfold recordAgreementStep at h
  split at h
  · simp only [accUsernames, List.mem_append] at h ⊢
    rcases h with ((h2 | h2) | h2) | h2
    · exact Or.inr (Or.inl (Or.inl (Or.inl h2)))
    · exact Or.inr (Or.inl (Or.inl (Or.inr h2)))
    · exact Or.inr (Or.inl (Or.inr h2))
    · rcases mem_mapUsernames_ddAppend h2 with h3 | h3
      · exact Or.inl h3
      · exact Or.inr (Or.inr h3)
  · exact Or.inr h

lemma mem_accUsernames_foldAgreements {p : PushPerson} {u : PyStr}
    {ags : List (PyStr × List PyStr)} {acc : PushAcc}
    (h : u ∈ accUsernames (ags.foldl (recordAgreementStep p) acc)) :
    u = p.username ∨ u ∈ accUsernames acc := by
  induction ags generalizing acc with
  | nil => exact Or.inr h
  | cons ag rest ih =>
    rw [List.foldl_cons] at h
    rcases ih h with h1 | h1
    · exact Or.inl h1
    · exact mem_accUsernames_recordAgreementStep h1

lemma mem_accUsernames_recordAgreements {conf : FasConf} {p : PushPerson}
    {u : PyStr} {acc : PushAcc}
    (h : u ∈ accUsernames (recordAgreements conf p acc)) :
    u = p.username ∨ u ∈ accUsernames acc :=
  mem_accUsernames_foldAgreements h

lemma mem_accUsernames_processPushPerson {patterns : List PyStr}
    {conflicts : List (PyStr × List PyStr)} {skipConflicts : List PyStr}
    {migrate : PushPerson → Status} {conf : FasConf} {acc : PushAcc}
    {p : PushPerson} {u : PyStr}
    (h : u ∈ accUsernames
      (processPushPerson patterns conflicts skipConflicts migrate conf acc p)) :
    (u = p.username ∧ migrate p ≠ Status.SKIPPED) ∨ u ∈ accUsernames acc := by
  unfold processPushPerson at h
  split at h
  · exact Or.inr h
  · split at h
    · exact Or.inr h
    · split at h
      · rcases mem_accUsernames_recordAgreements h with h1 | h1
        · rename_i hstatus
          exact Or.inl ⟨h1, hstatus⟩
        · rcases mem_accUsernames_foldRoles h1 with h2 | h2
          · rename_i hstatus
            exact Or.inl ⟨h2, hstatus⟩
          · exact Or.inr h2
      · exact Or.inr h

lemma mem_insertByName (q p : PushPerson) (l : List PushPerson) :
    q ∈ insertByName p l ↔ q = p ∨ q ∈ l := by
  induction l with
  | nil => simp [insertByName]
  | cons r rs ih =>
    unfold insertByName
    split
    · rw [List.mem_cons, ih, List.mem_cons]
      tauto
    · exact List.mem_cons

lemma mem_sortUsersByName (q : PushPerson) (l : List PushPerson) :
    q ∈ sortUsersByName l ↔ q ∈ l := by
  induction l with
  | nil => simp [sortUsersByName]
  | cons p ps ih =>
    rw [sortUsersByName, mem_insertByName, ih, List.mem_cons]

lemma mem_accUsernames_foldPersons {patterns : List PyStr}
    {conflicts : List (PyStr × List PyStr)} {skipConflicts : List PyStr}
    {migrate : PushPerson → Status} {conf : FasConf}
    {users : List PushPerson} {acc : PushAcc} {u : PyStr}
    (h : u ∈ accUsernames (users.foldl
      (processPushPerson patterns conflicts skipConflicts migrate conf) acc)) :
    (∃ p ∈ users, p.username = u ∧ migrate p ≠ Status.SKIPPED) ∨
      u ∈ accUsernames acc := by
  induction users generalizing acc with
  | nil => exact Or.inr h
  | cons p rest ih =>
    rw [List.foldl_cons] at h
    rcases ih h with ⟨q, hq, hq2⟩ | h1
    · exact Or.inl ⟨q, List.mem_cons_of_mem _ hq, hq2⟩
    · rcases mem_accUsernames_processPushPerson h1 with ⟨he, hs⟩ | h2
      · exact Or.inl ⟨p, List.mem_cons_self _ _, he.symm, hs⟩
      · exact Or.inr h2

lemma mem_accUsernames_pushRealm {patterns : List PyStr}
    {conflicts : List (PyStr × List PyStr)} {skipConflicts : List PyStr}
    {migrate : PushPerson → Status} {conf : FasConf}
    {users : List PushPerson} {acc : PushAcc} {u : PyStr}
    (h : u ∈ accUsernames
      (pushRealm patterns conflicts skipConflicts migrate conf acc users)) :
    (∃ p ∈ users, p.username = u ∧ migrate p ≠ Status.SKIPPED) ∨
      u ∈ accUsernames acc := by
  unfold pushRealm at h
  rcases mem_accUsernames_foldPersons h with ⟨p, hp, hp2⟩ | h1
  · exact Or.inl ⟨p, (mem_sortUsersByName p users).mp hp, hp2⟩
  · exact Or.inr h1

lemma mem_accUsernames_foldRealms {patterns : List PyStr}
    {conflicts : List (PyStr × List PyStr)} {skipConflicts : List PyStr}
    {migrate : PushPerson → Status}
    {realms : List (FasConf × List PushPerson)} {acc : PushAcc} {u : PyStr}
    (h : u ∈ accUsernames (realms.foldl
      (fun a rm => pushRealm patterns conflicts skipConflicts migrate rm.1 a rm.2)
      acc)) :
    (∃ rm ∈ realms, ∃ p ∈ rm.2, p.username = u ∧ migrate p ≠ Status.SKIPPED) ∨
      u ∈ accUsernames acc := by
  induction realms generalizing acc with
  | nil => exact Or.inr h
  | cons rm rest ih =>
    rw [List.foldl_cons] at h
    rcases ih h with ⟨rm', hrm', hp⟩ | h1
    · exact Or.inl ⟨rm', List.mem_cons_of_mem _ hrm', hp⟩
    · rcases mem_accUsernames_pushRealm h1 with ⟨p, hp, hp2⟩ | h2
      · exact Or.inl ⟨rm, List.mem_cons_self _ _, p, hp, hp2⟩
      · exact Or.inr h2

/-- C8: every username stored in any group-membership delta (approved
members, sponsors, unapproved removals) or agreement-signature delta produced
by a `_push_users` run comes from a user in one of the processed realms whose
`migrate_user` outcome was not `SKIPPED` (conflict-skipped users never reach
the recording code at all, so they contribute nothing either). -/
theorem C8_deltas_only_non_skipped (patterns : List PyStr)
    (conflicts : List (PyStr × List PyStr)) (skipConflicts : List PyStr)
    (migrate : PushPerson → Status) (realms : List (FasConf × List PushPerson))
    (u : PyStr)
    (hu : u ∈ accUsernames
      (pushUsersDeltas patterns conflicts skipConflicts migrate realms)) :
    ∃ rm ∈ realms, ∃ p ∈ rm.2, p.username = u ∧ migrate p ≠ Status.SKIPPED := by
  unfold pushUsersDeltas at hu
  rcases mem_accUsernames_foldRealms hu with h | h
  · exact h
  · exact absurd h (by simp [accUsernames, emptyPushAcc, mapUsernames])

/-- C8 witness: one realm with one approved group role for `alice`, whose
migration outcome is `ADDED`; the member delta then holds exactly `alice`,
coming from a non-skipped user. -/
theorem C8_deltas_only_non_skipped_witness :
    ∃ rm ∈ [((⟨[], "fas-".data, []⟩ : FasConf),
        [(⟨"alice".data, [("g".data, ⟨some 1, "approved".data, "user".data⟩)],
          []⟩ : PushPerson)])],
      ∃ p ∈ rm.2, p.username = "alice".data ∧
        (fun (_ : PushPerson) => Status.ADDED) p ≠ Status.SKIPPED :=
  C8_deltas_only_non_skipped ["a*".data] [] []
    (fun _ => Status.ADDED)
    [(⟨[], "fas-".data, []⟩,
      [⟨"alice".data, [("g".data, ⟨some 1, "approved".data, "user".data⟩)], []⟩])]
    "alice".data (by decide)

/-- A Python value stored in a FAS record dict: a string, a boolean, `None`,
or a compound/other object (dict, list, number) that the migration pipeline
never inspects beyond truthiness; the tag distinguishes distinct objects. -/
inductive PyVal
  | pstr (s : PyStr)
  | pbool (b : Bool)
  | pnone
  | pother (tag : Nat)
deriving DecidableEq

/-- Python truthiness of the record values the source tests with `if x:`;
compound objects are modelled as truthy (the records' compound values —
`group_roles`, `memberships` — are only tested when non-empty). -/
def pyTruthy : PyVal → Bool
  | .pstr s => s ≠ []
  | .pbool b => b
  | .pnone => false
  | .pother _ => true

/-- Python's default `str.strip` whitespace set. -/
def isPySpace (c : Char) : Bool :=
  c = ' ' || c = '\t' || c = '\n' || c = '\r' ||
    c = Char.ofNat 11 || c = Char.ofNat 12

/-- Python `str.strip()`. -/
def pyStrip (s : PyStr) : PyStr :=
  ((s.dropWhile isPySpace).reverse.dropWhile isPySpace).reverse

/-- Python `str.split(sep)` with a one-character separator: splits at every
occurrence and keeps empty parts. -/
def pySplitOn (sep : Char) : PyStr → List PyStr
  | [] => [[]]
  | c :: rest =>
    if c = sep then [] :: pySplitOn sep rest
    else
      match pySplitOn sep rest with
      | [] => [[c]]
      | t :: ts => (c :: t) :: ts

/-- Python `str(x)` as used in f-strings for the migrated values. -/
def pyRender : PyVal → PyStr
  | .pstr s => s
  | .pbool true => "True".data
  | .pbool false => "False".data
  | .pnone => "None".data
  | .pother _ => "<obj>".data

/-- Membership of `[0-9 :-]`, the character class of `CREATION_TIME_RE`
(users.py line 16). -/
def isCreA (c : Char) : Bool := c.isDigit || c = ' ' || c = ':' || c = '-'

/-- Matching the suffix `.[0-9]+\+00:00` of `CREATION_TIME_RE` right after the
first capture group (`.` matches any character except a newline; the digits
are maximal, which is exact because the following literal starts with `+`):
returns the remainder after the whole match. -/
def matchTailAfterGroup (s : PyStr) : Option PyStr :=
  match s with
  | [] => none
  | c :: rest =>
    if c = '\n' then none
    else
      let ds := rest.takeWhile Char.isDigit
      if ds = [] then none
      else if (rest.drop ds.length).take 6 = "+00:00".data then
        some ((rest.drop ds.length).drop 6)
      else none

/-- Backtracking over the greedy group `([0-9 :-]+)`: try the candidate group
length `k` (at most the maximal run, at least 1), longest first; returns the
capture and the remainder after the regex match. -/
def tryGroupLen (s : PyStr) : Nat → Option (PyStr × PyStr)
  | 0 => none
  | k + 1 =>
    match matchTailAfterGroup (s.drop (k + 1)) with
    | some rem => some (s.take (k + 1), rem)
    | none => tryGroupLen s k

/-- Matching `CREATION_TIME_RE` at the start of `s`. -/
def tryMatchCreation (s : PyStr) : Option (PyStr × PyStr) :=
  tryGroupLen s (s.takeWhile isCreA).length

/-- The scan of `re.sub`, with fuel bounded by the string length (every match
consumes at least one character, so the fuel never runs out). -/
def creationTimeSubAux : Nat → PyStr → PyStr
  | 0, s => s
  | _, [] => []
  | fuel + 1, c :: rest =>
    match tryMatchCreation (c :: rest) with
    | some (g1, rem) => g1 ++ ['Z'] ++ creationTimeSubAux fuel rem
    | none => c :: creationTimeSubAux fuel rest

/-- `CREATION_TIME_RE.sub(r"\1Z", creation)` (users.py lines 16 and 339):
rewrite every `<date-ish>.<fraction>+00:00` timestamp to `<date-ish>Z`. -/
def creationTimeSub (s : PyStr) : PyStr := creationTimeSubAux s.length s

/-- The name derivation of `migrate_user` (users.py lines 309-321): split the
stripped human name on spaces; one or more than two parts leave the first
name as the unset placeholder and the whole name as last name; exactly two
parts split directly; a falsy human name yields placeholder first/last/full
names.  `none` models the uncaught `TypeError` of `.strip()` on a truthy
non-string (this code is outside the `try` block). -/
def deriveName (hn : PyVal) : Option (PyStr × PyStr × PyStr) :=
  if pyTruthy hn then
    match hn with
    | .pstr s =>
      let name := pyStrip s
      let nameSplit := pySplitOn ' ' name
      if 2 < nameSplit.length ∨ nameSplit.length = 1 then
        some (name, "<first-name-unset>".data, name)
      else
        some (name, pyStrip (nameSplit.getD 0 []), pyStrip (nameSplit.getD 1 []))
    | _ => none
  else
    some ("<first-name-unset> <last-name-unset>".data,
      "<first-name-unset>".data, "<last-name-unset>".data)

/-- A value of the `user_args` dict (users.py lines 323-340): a plain Python
value or a list of strings (`ipasshpubkey` / `fasgpgkeyid`). -/
inductive AVal
  | av (v : PyVal)
  | avList (l : List PyStr)
deriving DecidableEq

/-- Truthiness of a `user_args` value under `if not x:` / `x or y`. -/
def avTruthy : AVal → Bool
  | .av v => pyTruthy v
  | .avList l => l ≠ []

/-- Python `==` between a `user_args` value and a string literal (users.py
lines 352-356). -/
def avEqStr (a : AVal) (s : PyStr) : Bool :=
  match a with
  | .av (.pstr t) => t = s
  | _ => false

/-- Lookup in the `user_args` dict. -/
def lookupKey (args : List (String × AVal)) (k : String) : Option AVal :=
  args.lookup k

/-- Python `del d[k]` on the `user_args` dict. -/
def eraseKeyA (args : List (String × AVal)) (k : String) : List (String × AVal) :=
  args.filter (fun kv => kv.1 != k)

/-- Python `d[k] = v` on the `user_args` dict: replace in place or append. -/
def setKey (args : List (String × AVal)) (k : String) (v : AVal) :
    List (String × AVal) :=
  match args with
  | [] => [(k, v)]
  | (k', v') :: rest =>
    if k' = k then (k, v) :: rest else (k', v') :: setKey rest k v

/-- The `x.strip() if x else None` idiom (users.py lines 333-335); `none`
models the `TypeError` of `.strip()` on a truthy non-string, raised inside
the `try` block. -/
def strField (v : PyVal) : Option AVal :=
  if pyTruthy v then
    match v with
    | .pstr s => some (AVal.av (.pstr (pyStrip s)))
    | _ => none
  else some (AVal.av .pnone)

/-- The `user_args` dict literal with all values already computed (users.py
lines 323-340), in source order. -/
def mkUserArgs (firstName lastName name homeDir : PyStr) (disabled : Bool)
    (email : PyVal) (sshA ircA locA tzA gpgA : AVal)
    (statusNote creationStr : PyStr) (isPrivate : Bool) :
    List (String × AVal) :=
  [("first_name", AVal.av (.pstr firstName)),
   ("last_name", AVal.av (.pstr lastName)),
   ("full_name", AVal.av (.pstr name)),
   ("gecos", AVal.av (.pstr name)),
   ("display_name", AVal.av (.pstr name)),
   ("home_directory", AVal.av (.pstr homeDir)),
   ("disabled", AVal.av (.pbool disabled)),
   ("mail", AVal.av email),
   ("ipasshpubkey", sshA),
   ("fasircnick", ircA),
   ("faslocale", locA),
   ("fastimezone", tzA),
   ("fasgpgkeyid", gpgA),
   ("fasstatusnote", AVal.av (.pstr statusNote)),
   ("fasisprivate", AVal.av (.pbool isPrivate)),
   ("fascreationtime", AVal.av (.pstr creationStr))]

/-- The `ipasshpubkey` value: `[k.strip() for k in ssh_key.split("\\n") if
k.strip()] if ssh_key else None` (users.py line 332); `none` models a
`TypeError` on a truthy non-string. -/
def sshField (v : PyVal) : Option AVal :=
  if pyTruthy v then
    match v with
    | .pstr s =>
      some (AVal.avList ((pySplitOn '\n' s).filterMap
        (fun k => let ks := pyStrip k; if ks ≠ [] then some ks else none)))
    | _ => none
  else some (AVal.av .pnone)

/-- The `fasgpgkeyid` value: `[gpg_keyid[:16].strip()] if gpg_keyid else
None` (users.py line 336). -/
def gpgField (v : PyVal) : Option AVal :=
  if pyTruthy v then
    match v with
    | .pstr s => some (AVal.avList [pyStrip (s.take 16)])
    | _ => none
  else some (AVal.av .pnone)

/-- `status.strip()` (users.py line 337); `none` models the `TypeError` on a
non-string. -/
def asStrStrip (v : PyVal) : Option PyStr :=
  match v with
  | .pstr s => some (pyStrip s)
  | _ => none

/-- `CREATION_TIME_RE.sub(r"\\1Z", creation)` applied to the popped value
(users.py line 339); `none` models the `TypeError` on a non-string. -/
def asCreation (v : PyVal) : Option PyStr :=
  match v with
  | .pstr s => some (creationTimeSub s)
  | _ => none

/-- Building `user_args` from the popped record fields (users.py lines
322-340); `none` models any exception raised while computing the values,
caught by the surrounding `except Exception` and turned into `FAILED`. -/
def buildUserArgs (name firstName lastName : PyStr)
    (username status email ircnick locale timezone gpgKeyid sshKey creation
      privacy : PyVal) : Option (List (String × AVal)) :=
  match sshField sshKey, strField ircnick, strField locale, strField timezone,
      gpgField gpgKeyid, asStrStrip status, asCreation creation with
  | some sshA, some ircA, some locA, some tzA, some gpgA, some sn, some cs =>
    some (mkUserArgs firstName lastName name
      ("/home/fedora/".data ++ pyRender username)
      (status ≠ PyVal.pstr "active".data) email sshA ircA locA tzA gpgA sn cs
      (pyTruthy privacy))
  | _, _, _, _, _, _, _ => none

/-- The `user_add_args` variant used only for the create call (users.py
lines 342-346): a copy with a random password and locale/timezone defaults. -/
def addArgsOf (args : List (String × AVal)) : List (String × AVal) :=
  let orDefault : Option AVal → PyStr → AVal := fun v d =>
    match v with
    | some a => if avTruthy a then a else AVal.av (.pstr d)
    | none => AVal.av (.pstr d)
  let a1 := setKey args "random_pass" (AVal.av (.pbool true))
  let a2 := setKey a1 "faslocale" (orDefault (lookupKey a1 "faslocale") "en_US".data)
  setKey a2 "fastimezone" (orDefault (lookupKey a2 "fastimezone") "UTC".data)

/-- Dropping the placeholder name fields from the pending update (users.py
lines 351-357): delete the key when its value equals the given placeholder
string. -/
def delIfEq (args : List (String × AVal)) (k : String) (s : PyStr) :
    List (String × AVal) :=
  match lookupKey args k with
  | some v => if avEqStr v s then eraseKeyA args k else args
  | none => args

/-- The three placeholder deletions on the already-exists path (users.py
lines 351-357). -/
def pruneNames (args : List (String × AVal)) : List (String × AVal) :=
  delIfEq
    (delIfEq (delIfEq args "first_name" "<first-name-unset>".data)
      "last_name" "<last-name-unset>".data)
    "full_name" "<first-name-unset> <last-name-unset>".data

/-- Outcome of `self.user_show(username)` on the already-exists path: the
existing record's `faslocale`/`fastimezone` (absent keys and the values'
truthiness drive the `or` defaults), or a raised exception. -/
inductive ShowResp
  | found (faslocale fastimezone : Option PyStr)
  | unauthorized
  | freeipaErr (msg : PyStr)
  | otherExc
deriving DecidableEq

/-- Result of the locale/timezone fill step: the updated args, or the
exception that `user_show` raised. -/
inductive UpdatePrep
  | proceed (args : List (String × AVal))
  | unauthRaised
  | freeipaRaised (msg : PyStr)
  | otherRaised
deriving DecidableEq

/-- The locale/timezone fill on the already-exists path (users.py lines
359-365): only when `faslocale` or `fastimezone` is `None` is the existing
record fetched, and each falsy value is replaced by the existing value or its
default — never an already-set one. -/
def fillLocaleTz (showResp : ShowResp) (args : List (String × AVal)) : UpdatePrep :=
  if lookupKey args "faslocale" = some (AVal.av .pnone) ∨
      lookupKey args "fastimezone" = some (AVal.av .pnone) then
    match showResp with
    | .found l t =>
      let orStr : Option PyStr → PyStr → PyStr := fun o d =>
        match o with
        | some s => if s ≠ [] then s else d
        | none => d
      let a1 :=
        if !avTruthy ((lookupKey args "faslocale").getD (AVal.av .pnone)) then
          setKey args "faslocale" (AVal.av (.pstr (orStr l "en_US".data)))
        else args
      let a2 :=
        if !avTruthy ((lookupKey a1 "fastimezone").getD (AVal.av .pnone)) then
          setKey a1 "fastimezone" (AVal.av (.pstr (orStr t "UTC".data)))
        else a1
      .proceed a2
    | .unauthorized => .unauthRaised
    | .freeipaErr m => .freeipaRaised m
    | .otherExc => .otherRaised
  else .proceed args

/-- The `None`/blank filter applied before `user_mod` (users.py lines
367-371). -/
def dropBlank (args : List (String × AVal)) : List (String × AVal) :=
  args.filter (fun kv =>
    match kv.2 with
    | .av .pnone => false
    | .av (.pstr s) => pyStrip s ≠ []
    | _ => true)

/-- The arguments that actually reach `self.ipa.user_mod` on the
already-exists path (users.py lines 351-374); `none` when `user_show` raised
before the update could be issued. -/
def updateCallArgsFrom (showResp : ShowResp) (args : List (String × AVal)) :
    Option (List (String × AVal)) :=
  match fillLocaleTz showResp (pruneNames args) with
  | .proceed a => some (dropBlank a)
  | _ => none

/-- Outcome of the `ipa.user_add` call (users.py line 347). -/
inductive AddResp
  | ok
  | freeipaErr (msg : PyStr)
  | unauthorized
  | otherExc
deriving DecidableEq

/-- Outcome of the `ipa.user_mod` call (users.py line 374). -/
inductive ModResp
  | ok
  | freeipaErr (msg : PyStr)
  | unauthorized
  | otherExc
deriving DecidableEq

/-- The directory responses one attempt of `migrate_user` can consume. -/
structure AttemptOracle where
  addResp : AddResp
  showResp : ShowResp
  modResp : ModResp
deriving DecidableEq

/-- The exact message python_freeipa reports for an existing user, matched on
users.py line 350. -/
def alreadyExistsMsg (username : PyVal) : PyStr :=
  "user with name \"".data ++ pyRender username ++ "\" already exists".data

/-- The terminal result of one attempt, or the `Unauthorized` signal that
triggers re-authentication (users.py lines 379-383). -/
inductive AttemptResult
  | stat (s : Status)
  | unauth
deriving DecidableEq

/-- The `no modifications to be performed` idempotence message (users.py
line 385). -/
def noModifMsg : PyStr := "no modifications to be performed".data

/-- The create/update outcome logic of one `migrate_user` attempt (users.py
lines 341-391): create maps success to `ADDED`; the already-exists signal
takes the update path (placeholder pruning, locale/timezone fill, blank
filter, `user_mod` mapping success to `UPDATED`); any other `FreeIPAError`
re-raises into the outer handler, which maps the no-modification message to
`UNMODIFIED` and everything else to `FAILED`; `Unauthorized` anywhere becomes
the re-authentication signal; any other exception is `FAILED`. -/
def classifyOutcome (orc : AttemptOracle) (username : PyVal)
    (args : List (String × AVal)) : AttemptResult :=
  match orc.addResp with
  | .ok => .stat .ADDED
  | .unauthorized => .unauth
  | .otherExc => .stat .FAILED
  | .freeipaErr msg =>
    if msg = alreadyExistsMsg username then
      match fillLocaleTz orc.showResp (pruneNames args) with
      | .proceed _ =>
        match orc.modResp with
        | .ok => .stat .UPDATED
        | .unauthorized => .unauth
        | .freeipaErr m =>
          if m = noModifMsg then .stat .UNMODIFIED else .stat .FAILED
        | .otherExc => .stat .FAILED
      | .unauthRaised => .unauth
      | .freeipaRaised m =>
        if m = noModifMsg then .stat .UNMODIFIED else .stat .FAILED
      | .otherRaised => .stat .FAILED
    else if msg = noModifMsg then .stat .UNMODIFIED
    else .stat .FAILED

/-- The configuration flags `migrate_user` consults (users.py lines
236-244). -/
structure UsersConfig where
  skipDisabled : Bool
  skipSpam : Bool
  skipUserAdd : Bool
deriving DecidableEq

/-- A Python dict with string keys, insertion-ordered. -/
abbrev PyDict := List (PyStr × PyVal)

/-- The heap of live dict objects; addresses are indices, allocation

appends. -/
abbrev Heap := List PyDict

/-- The ignored attributes removed before field extraction (users.py lines
248-273). -/
def ignoredKeys : List PyStr :=
  ["affiliation".data, "alias_enabled".data, "certificate_serial".data,
   "comments".data, "country_code".data, "facsimile".data, "group_roles".data,
   "id".data, "internal_comments".data, "ipa_sync_status".data,
   "last_seen".data, "latitude".data, "longitude".data, "memberships".data,
   "old_password".data, "password".data, "password_changed".data,
   "postal_address".data, "roles".data, "security_answer".data,
   "security_question".data, "status_change".data, "telephone".data,
   "unverified_email".data]

/-- Substring containment, Python's `t in key` (users.py line 279). -/
def strContainsSub (s sub : PyStr) : Bool :=
  (List.range (s.length + 1)).any (fun i => sub.isPrefixOf (s.drop i))

/-- The key filter of the dict comprehension (users.py lines 275-281):
drop ignored keys and any key containing `token`. -/
def keepKey (k : PyStr) : Bool :=
  !(ignoredKeys.contains k || strContainsSub k "token".data)

/-- The dict comprehension rebuilding `person` without ignored keys
(users.py lines 275-281). -/
def filterIgnored (d : PyDict) : PyDict := d.filter (fun kv => keepKey kv.1)

/-- Dict lookup. -/
def dictGet (d : PyDict) (k : PyStr) : Option PyVal := d.lookup k

/-- Removing a key from a dict, the mutation part of `dict.pop`. -/
def dictEraseKey (d : PyDict) (k : PyStr) : PyDict :=
  d.filter (fun kv => kv.1 != k)

/-- The keys popped from the record in source order (users.py lines
284-294). -/
def migrateKeys : List PyStr :=
  ["username".data, "human_name".data, "status".data, "email".data,
   "ircnick".data, "locale".data, "timezone".data, "gpg_keyid".data,
   "ssh_key".data, "creation".data, "privacy".data]

/-- The sequence of `person.pop(...)` calls (users.py lines 284-294) on the
dict at address `a`, mutating it in place; `none` models the uncaught
`KeyError` when a key is missing. -/
def popKeys (h : Heap) (a : Nat) : List PyStr → Option (List PyVal × Heap)
  | [] => some ([], h)
  | k :: rest =>
    match h[a]? with
    | none => none
    | some d =>
      match dictGet d k with
      | none => none
      | some v =>
        match popKeys (h.set a (dictEraseKey d k)) a rest with
        | none => none
        | some (vs, h') => some (v :: vs, h')

/-- The record-handling phase of one `migrate_user` attempt (users.py lines
233-340): copy the record (line 235), apply the policy early-exits on the
copy (lines 236-244), rebuild the copy without ignored keys (lines 275-281),
pop the migrated fields (lines 284-294), hard-fail on leftovers (lines
296-307), derive the name (lines 309-321) and build `user_args` (lines
322-340).  `Sum.inl` is a terminal status with its heap; `Sum.inr` carries
the username value and the built args to the directory-call phase; `none` is
an uncaught exception. -/
def attemptDictPhase (cfg : UsersConfig) (h : Heap) (a : Nat) :
    Option (Sum (Status × Heap) (PyVal × List (String × AVal) × Heap)) :=
  match h[a]? with
  | none => none
  | some person0 =>
    let h1 := h ++ [person0]
    let a1 := h.length
    match h1[a1]? with
    | none => none
    | some personC =>
      if cfg.skipDisabled &&
          !(dictGet personC "status".data == some (PyVal.pstr "active".data)) then
        some (.inl (.SKIPPED, h1))
      else if cfg.skipSpam &&
          (dictGet personC "status".data == some (PyVal.pstr "spamcheck_denied".data)) then
        some (.inl (.SKIPPED, h1))
      else if cfg.skipUserAdd then
        some (.inl (.UNMODIFIED, h1))
      else
        let h2 := h1 ++ [filterIgnored personC]
        let a2 := h1.length
        match popKeys h2 a2 migrateKeys with
        | none => none
        | some (vals, h3) =>
          match h3[a2]? with
          | none => none
          | some leftover =>
            if leftover ≠ [] then some (.inl (.FAILED, h3))
            else
              match vals with
              | [username, humanName, status, email, ircnick, locale, timezone,
                  gpg, ssh, creation, privacy] =>
                match deriveName humanName with
                | none => none
                | some (name, fn, ln) =>
                  match buildUserArgs name fn ln username status email ircnick
                      locale timezone gpg ssh creation privacy with
                  | none => some (.inl (.FAILED, h3))
                  | some args => some (.inr (username, args, h3))
              | _ => none

/-- One complete attempt of `migrate_user` (users.py lines 233-391): the
record-handling phase followed by the directory-call outcome. -/
def attemptBody (cfg : UsersConfig) (orc : AttemptOracle) (h : Heap) (a : Nat) :
    Option (AttemptResult × Heap) :=
  match attemptDictPhase cfg h a with
  | none => none
  | some (.inl (s, h')) => some (.stat s, h')
  | some (.inr (username, args, h')) =>
    some (classifyOutcome orc username args, h')

/-- `migrate_user` with its re-authentication recursion (users.py lines
379-383): on the `Unauthorized` signal, log in again and retry on the
original record (the same heap address `a`, i.e. `person_orig`).  The
attempt index `k` selects the oracle for each attempt and is returned as the
number of retries performed; `none` models non-termination (fuel exhausted)
or an uncaught exception. -/
def migrateUserHeap (cfg : UsersConfig) (orc : Nat → AttemptOracle) :
    Nat → Nat → Heap → Nat → Option (Status × Heap × Nat)
  | 0, _, _, _ => none
  | fuel + 1, k, h, a =>
    match attemptBody cfg (orc k) h a with
    | none => none
    | some (.stat s, h') => some (s, h', k)
    | some (.unauth, h') => migrateUserHeap cfg orc fuel (k + 1) h' a

lemma getElem?_append_self {α : Type} (l : List α) (x : α) :
    (l ++ [x])[l.length]? = some x := by simp

lemma popKeys_frame {keys : List PyStr} {h h' : Heap} {a : Nat} {vs : List PyVal}
    (hp : popKeys h a keys = some (vs, h')) (b : Nat) (hb : b ≠ a) :
    h'[b]? = h[b]? ∧ h'.length = h.length := by
  induction keys generalizing h vs with
  | nil =>
    simp only [popKeys, Option.some.injEq, Prod.mk.injEq] at hp
    obtain ⟨_, rfl⟩ := hp
    exact ⟨rfl, rfl⟩
  | cons k rest ih =>
    simp only [popKeys] at hp
    rcases hg : h[a]? with _ | d <;> simp only [hg] at hp
    · exact Option.noConfusion hp
    · rcases hd : dictGet d k with _ | v <;> simp only [hd] at hp
      · exact Option.noConfusion hp
      · rcases hrec : popKeys (h.set a (dictEraseKey d k)) a rest with _ | ⟨vs2, h2⟩ <;>
          simp only [hrec] at hp
        · exact Option.noConfusion hp
        · simp only [Option.some.injEq, Prod.mk.injEq] at hp
          obtain ⟨_, rfl⟩ := hp
          obtain ⟨he, hl⟩ := ih hrec
          refine ⟨?_, ?_⟩
          · rw [he, List.getElem?_set_ne (fun hab => hb hab.symm)]
          · rw [hl, List.length_set]

/-- The heap carried by the result of the record-handling phase. -/
def phaseHeap : Sum (Status × Heap) (PyVal × List (String × AVal) × Heap) → Heap
  | .inl (_, hh) => hh
  | .inr (_, _, hh) => hh

lemma attemptDictPhase_frame {cfg : UsersConfig} {h : Heap} {a : Nat}
    {r : Sum (Status × Heap) (PyVal × List (String × AVal) × Heap)}
    (ha : a < h.length) (hr : attemptDictPhase cfg h a = some r) :
    (phaseHeap r)[a]? = h[a]? ∧ h.length ≤ (phaseHeap r).length := by
  have happ1 : ∀ x : PyDict, (h ++ [x])[a]? = h[a]? :=
    fun x => List.getElem?_append_left ha
  rcases hp0 : h[a]? with _ | person0
  · simp only [attemptDictPhase, hp0] at hr
    exact Option.noConfusion hr
  · simp only [attemptDictPhase, hp0, getElem?_append_self] at hr
    have hframe1 : ((h ++ [person0]) : Heap)[a]? = h[a]? ∧
        h.length ≤ ((h ++ [person0]) : Heap).length := by
      refine ⟨happ1 _, by simp⟩
    split at hr
    · simp only [Option.some.injEq] at hr
      subst hr
      simpa [phaseHeap, hp0] using hframe1
    · split at hr
      · simp only [Option.some.injEq] at hr
        subst hr
        simpa [phaseHeap, hp0] using hframe1
      · split at hr
        · simp only [Option.some.injEq] at hr
          subst hr
          simpa [phaseHeap, hp0] using hframe1
        · rcases hpk : popKeys ((h ++ [person0]) ++ [filterIgnored person0])
              (h ++ [person0]).length migrateKeys with _ | ⟨vals, h3⟩ <;>
            simp only [hpk] at hr
          · exact Option.noConfusion hr
          · have hane : a ≠ (h ++ [person0]).length := by
              simp only [List.length_append, List.length_cons, List.length_nil]
              omega
            obtain ⟨he3, hl3⟩ := popKeys_frame hpk a hane
            have hframe3 : h3[a]? = h[a]? ∧ h.length ≤ h3.length := by
              constructor
              · rw [he3, List.getElem?_append_left, happ1]
                simp only [List.length_append, List.length_cons, List.length_nil]
                omega
              · rw [hl3]
                simp only [List.length_append, List.length_cons, List.length_nil]
                omega
            rcases hlf : h3[(h ++ [person0]).length]? with _ | leftover <;>
              simp only [hlf] at hr
            · exact Option.noConfusion hr
            · split at hr
              · simp only [Option.some.injEq] at hr
                subst hr
                simpa [phaseHeap, hp0] using hframe3
              · split at hr
                · split at hr
                  · exact Option.noConfusion hr
                  · split at hr
                    · simp only [Option.some.injEq] at hr
                      subst hr
                      simpa [phaseHeap, hp0] using hframe3
                    · simp only [Option.some.injEq] at hr
                      subst hr
                      simpa [phaseHeap, hp0] using hframe3
                · exact Option.noConfusion hr

lemma attemptBody_frame {cfg : UsersConfig} {orc : AttemptOracle} {h : Heap}
    {a : Nat} {res : AttemptResult} {h' : Heap}
    (ha : a < h.length) (hr : attemptBody cfg orc h a = some (res, h')) :
    h'[a]? = h[a]? ∧ h.length ≤ h'.length := by
  unfold attemptBody at hr
  rcases hd : attemptDictPhase cfg h a with _ | r <;> simp only [hd] at hr
  · exact Option.noConfusion hr
  · have hfr := attemptDictPhase_frame ha hd
    rcases r with ⟨s, hh⟩ | ⟨u, args, hh⟩ <;>
      simp only [Option.some.injEq, Prod.mk.injEq] at hr <;>
      simp only [phaseHeap] at hfr
    · obtain ⟨_, rfl⟩ := hr
      exact hfr
    · obtain ⟨_, rfl⟩ := hr
      exact hfr

/-- C9: `migrate_user` never mutates the caller's record: for every
configuration, directory-response oracle, heap and record address, and every
terminal outcome (including runs that recursed through the re-authentication
retry), the dict at the caller's address is unchanged — the copy (line 235),
the filtering comprehension (line 275) and all `pop` mutations act on fresh
heap cells only, and the retry is issued on the original address. -/
theorem C9_record_not_mutated (cfg : UsersConfig) (orc : Nat → AttemptOracle)
    (fuel k : Nat) (h : Heap) (a : Nat) (s : Status) (h' : Heap) (r : Nat)
    (ha : a < h.length)
    (hrun : migrateUserHeap cfg orc fuel k h a = some (s, h', r)) :
    h'[a]? = h[a]? := by
  induction fuel generalizing k h with
  | zero => exact Option.noConfusion hrun
  | succ fuel ih =>
    rw [migrateUserHeap] at hrun
    rcases hb : attemptBody cfg (orc k) h a with _ | ⟨res, h2⟩ <;>
      simp only [hb] at hrun
    · exact Option.noConfusion hrun
    · obtain ⟨he2, hl2⟩ := attemptBody_frame ha hb
      rcases res with s2 | _
      · simp only [Option.some.injEq, Prod.mk.injEq] at hrun
        obtain ⟨_, rfl, _⟩ := hrun
        exact he2
      · have ha2 : a < h2.length := lt_of_lt_of_le ha hl2
        rw [ih (k + 1) h2 ha2 hrun, he2]

/-- C9 witness: a one-cell heap holding a record that the policy skips; the
call returns `SKIPPED` after allocating the copy, and the caller's cell is
untouched. -/
theorem C9_record_not_mutated_witness :
    (([[("status".data, PyVal.pstr "x".data)],
       [("status".data, PyVal.pstr "x".data)]] : Heap)[0]?) =
      (([[("status".data, PyVal.pstr "x".data)]] : Heap)[0]?) :=
  C9_record_not_mutated ⟨true, true, false⟩
    (fun _ => ⟨AddResp.ok, ShowResp.found none none, ModResp.ok⟩) 1 0
    [[("status".data, PyVal.pstr "x".data)]] 0 Status.SKIPPED
    [[("status".data, PyVal.pstr "x".data)],
     [("status".data, PyVal.pstr "x".data)]] 0
    (by decide) (by decide)

/-- A complete well-formed FAS record used for the retry analysis. -/
def retryRecord : PyDict :=
  [("username".data, PyVal.pstr "bob".data),
   ("human_name".data, PyVal.pstr "Bob B".data),
   ("status".data, PyVal.pstr "active".data),
   ("email".data, PyVal.pstr "b@x.co".data),
   ("ircnick".data, PyVal.pnone),
   ("locale".data, PyVal.pnone),
   ("timezone".data, PyVal.pnone),
   ("gpg_keyid".data, PyVal.pnone),
   ("ssh_key".data, PyVal.pnone),
   ("creation".data, PyVal.pstr "2020-03-09 10:32:02.554245+00:00".data),
   ("privacy".data, PyVal.pbool false)]

/-- A directory that signals `Unauthorized` on the first two create attempts
and succeeds on the third. -/
def twiceUnauthOracle : Nat → AttemptOracle := fun n =>
  if n < 2 then ⟨AddResp.unauthorized, ShowResp.found none none, ModResp.ok⟩
  else ⟨AddResp.ok, ShowResp.found none none, ModResp.ok⟩

/-- C7 counterexample: when the directory signals `Unauthorized` again on the
retried attempt, `migrate_user` retries a second time — the recursion at
users.py line 383 has no bound, so the retry count reaches 2, refuting "the
retry count never exceeds one". -/
theorem C7_counterexample :
    (migrateUserHeap ⟨true, true, false⟩ twiceUnauthOracle 5 0 [retryRecord] 0).map
      (fun res => (res.1, res.2.2)) = some (Status.ADDED, 2) ∧
    ¬ ((2 : Nat) ≤ 1) := by
  refine ⟨by decide, by decide⟩

/-- An attempt's oracle signals no authentication expiry at any of its three
call sites. -/
def attemptNoUnauth (o : AttemptOracle) : Prop :=
  o.addResp ≠ AddResp.unauthorized ∧ o.showResp ≠ ShowResp.unauthorized ∧
    o.modResp ≠ ModResp.unauthorized

instance (o : AttemptOracle) : Decidable (attemptNoUnauth o) := by
  unfold attemptNoUnauth
  infer_instance

lemma fillLocaleTz_no_unauth {showResp : ShowResp} {args : List (String × AVal)}
    (h : showResp ≠ ShowResp.unauthorized) :
    fillLocaleTz showResp args ≠ UpdatePrep.unauthRaised := by
  unfold fillLocaleTz
  split
  · cases showResp with
    | found l t => simp
    | unauthorized => exact absurd rfl h
    | freeipaErr m => simp
    | otherExc => simp
  · simp

lemma classifyOutcome_no_unauth {orc : AttemptOracle} {username : PyVal}
    {args : List (String × AVal)} (h : attemptNoUnauth orc) :
    classifyOutcome orc username args ≠ AttemptResult.unauth := by
  obtain ⟨h1, h2, h3⟩ := h
  cases horc : orc.addResp with
  | ok => simp [classifyOutcome, horc]
  | unauthorized => exact absurd horc h1
  | otherExc => simp [classifyOutcome, horc]
  | freeipaErr msg =>
    simp only [classifyOutcome, horc]
    split
    · rcases hfill : fillLocaleTz orc.showResp (pruneNames args) with a | _ | m | _ <;>
        simp only [hfill]
      · rcases hmod : orc.modResp with _ | m2 | _ | _ <;> simp only [hmod]
        · simp
        · split <;> simp
        · exact absurd hmod h3
        · simp
      · exact absurd hfill (fillLocaleTz_no_unauth h2)
      · split <;> simp
      · simp
    · split <;> simp

lemma attemptBody_no_unauth {cfg : UsersConfig} {orc : AttemptOracle}
    {h : Heap} {a : Nat} {h' : Heap} (hno : attemptNoUnauth orc) :
    attemptBody cfg orc h a ≠ some (AttemptResult.unauth, h') := by
  unfold attemptBody
  rcases hd : attemptDictPhase cfg h a with _ | (⟨s, hh⟩ | ⟨u, args, hh⟩)
  · simp
  · simp
  · intro hcontra
    simp only [Option.some.injEq, Prod.mk.injEq] at hcontra
    exact classifyOutcome_no_unauth hno hcontra.1

/-- C7 (amended): `migrate_user` re-authenticates and retries recursively on
the original record with no enforced bound — an adversarial directory that
signals `Unauthorized` on a retried attempt drives the count above one (see
the counterexample); the retry count stays at most one exactly under the
expectation the spec states, namely that no retried attempt signals
`Unauthorized` again. -/
theorem C7_amended_bounded_retry (cfg : UsersConfig) (orc : Nat → AttemptOracle)
    (fuel : Nat) (h : Heap) (a : Nat) (s : Status) (h' : Heap) (r : Nat)
    (hno : ∀ j, 1 ≤ j → attemptNoUnauth (orc j))
    (hrun : migrateUserHeap cfg orc fuel 0 h a = some (s, h', r)) :
    r ≤ 1 := by
  cases fuel with
  | zero => exact Option.noConfusion hrun
  | succ fuel =>
    rw [migrateUserHeap] at hrun
    rcases hb : attemptBody cfg (orc 0) h a with _ | ⟨res, h2⟩ <;>
      simp only [hb] at hrun
    · exact Option.noConfusion hrun
    · rcases res with s0 | _
      · simp only [Option.some.injEq, Prod.mk.injEq] at hrun
        obtain ⟨_, _, hr⟩ := hrun
        omega
      · cases fuel with
        | zero => exact Option.noConfusion hrun
        | succ fuel2 =>
          simp only [migrateUserHeap] at hrun
          rcases hb2 : attemptBody cfg (orc 1) h2 a with _ | ⟨res2, h3⟩ <;>
            simp only [hb2] at hrun
          · exact Option.noConfusion hrun
          · rcases res2 with s1 | _
            · simp only [Option.some.injEq, Prod.mk.injEq] at hrun
              obtain ⟨_, _, hr⟩ := hrun
              omega
            · exact absurd hb2 (attemptBody_no_unauth (hno 1 (le_refl 1)))

/-- C7 amended witness: with a directory that never signals `Unauthorized`,
the run on the retry record terminates with zero retries, within the bound. -/
theorem C7_amended_bounded_retry_witness : (0 : Nat) ≤ 1 :=
  C7_amended_bounded_retry ⟨true, true, false⟩
    (fun _ => ⟨AddResp.ok, ShowResp.found none none, ModResp.ok⟩) 3
    [retryRecord] 0 Status.ADDED [retryRecord, retryRecord, []] 0
    (fun _ _ =>
      (by decide :
        attemptNoUnauth ⟨AddResp.ok, ShowResp.found none none, ModResp.ok⟩))
    (by decide)

lemma lookupKey_eraseKeyA_self (args : List (String × AVal)) (k : String) :
    lookupKey (eraseKeyA args k) k = none := by
  induction args with
  | nil => rfl
  | cons kv rest ih =>
    obtain ⟨k1, v1⟩ := kv
    by_cases hk : k1 = k
    · simpa [eraseKeyA, List.filter_cons, hk] using ih
    · simp only [eraseKeyA, List.filter_cons] at ih ⊢
      simp only [bne_iff_ne, ne_eq, hk, not_false_eq_true, if_true]
      simp only [lookupKey, List.lookup]
      have : (k == k1) = false := by
        simp [beq_iff_eq]
        exact fun he => hk he.symm
      rw [this]
      exact ih

lemma lookupKey_eraseKeyA_ne (args : List (String × AVal)) (k k' : String)
    (h : k' ≠ k) : lookupKey (eraseKeyA args k) k' = lookupKey args k' := by
  induction args with
  | nil => rfl
  | cons kv rest ih =>
    obtain ⟨k1, v1⟩ := kv
    by_cases hk : k1 = k
    · subst hk
      simp only [eraseKeyA, List.filter_cons, bne_self_eq_false, Bool.false_eq_true,
        if_false] at ih ⊢
      rw [ih]
      simp only [lookupKey, List.lookup]
      have : (k' == k1) = false := by simp [beq_iff_eq, h]
      rw [this]
    · simp only [eraseKeyA, List.filter_cons] at ih ⊢
      simp only [bne_iff_ne, ne_eq, hk, not_false_eq_true, if_true]
      simp only [lookupKey, List.lookup] at ih ⊢
      cases hbe : (k' == k1) <;> simp [hbe, ih]

lemma lookupKey_delIfEq_self_none {args : List (String × AVal)} {k : String}
    {s : PyStr} {v : AVal} (hv : lookupKey args k = some v)
    (he : avEqStr v s = true) : lookupKey (delIfEq args k s) k = none := by
  unfold delIfEq
  rw [hv]
  simp only [he, if_true]
  exact lookupKey_eraseKeyA_self args k

lemma lookupKey_delIfEq_ne (args : List (String × AVal)) (k k' : String)
    (s : PyStr) (h : k' ≠ k) :
    lookupKey (delIfEq args k s) k' = lookupKey args k' := by
  unfold delIfEq
  split
  · split
    · exact lookupKey_eraseKeyA_ne args k k' h
    · rfl
  · rfl

lemma lookupKey_setKey_ne (args : List (String × AVal)) (k k' : String)
    (v : AVal) (h : k' ≠ k) :
    lookupKey (setKey args k v) k' = lookupKey args k' := by
  induction args with
  | nil =>
    simp only [setKey, lookupKey, List.lookup]
    have : (k' == k) = false := by simp [beq_iff_eq, h]
    rw [this]
  | cons kv rest ih =>
    obtain ⟨k1, v1⟩ := kv
    by_cases hk : k1 = k
    · subst hk
      simp only [setKey, if_pos rfl]
      simp only [lookupKey, List.lookup]
      have : (k' == k1) = false := by simp [beq_iff_eq, h]
      rw [this]
    · simp only [setKey, if_neg hk]
      simp only [lookupKey, List.lookup] at ih ⊢
      cases hbe : (k' == k1) <;> simp [hbe, ih]

lemma lookupKey_fillLocaleTz_ne {showResp : ShowResp}
    {args a2 : List (String × AVal)} {k : String}
    (h1 : k ≠ "faslocale") (h2 : k ≠ "fastimezone")
    (hres : fillLocaleTz showResp args = UpdatePrep.proceed a2) :
    lookupKey a2 k = lookupKey args k := by
  unfold fillLocaleTz at hres
  split at hres
  · cases showResp with
    | found l t =>
      simp only [UpdatePrep.proceed.injEq] at hres
      subst hres
      have hstep1 : ∀ a1 : List (String × AVal),
          lookupKey (if !avTruthy ((lookupKey a1 "fastimezone").getD (AVal.av .pnone))
            then setKey a1 "fastimezone"
              (AVal.av (.pstr (match t with
                | some s => if s ≠ [] then s else "UTC".data
                | none => "UTC".data)))
            else a1) k = lookupKey a1 k := by
        intro a1
        split
        · exact lookupKey_setKey_ne a1 "fastimezone" k _ h2
        · rfl
      rw [hstep1]
      split
      · exact lookupKey_setKey_ne args "faslocale" k _ h1
      · rfl
    | unauthorized => exact absurd hres (by simp)
    | freeipaErr m => exact absurd hres (by simp)
    | otherExc => exact absurd hres (by simp)
  · simp only [UpdatePrep.proceed.injEq] at hres
    subst hres
    rfl

lemma lookupKey_dropBlank_none {args : List (String × AVal)} {k : String}
    (h : lookupKey args k = none) : lookupKey (dropBlank args) k = none := by
  induction args with
  | nil => rfl
  | cons kv rest ih =>
    obtain ⟨k1, v1⟩ := kv
    simp only [lookupKey, List.lookup] at h
    cases hbe : (k == k1)
    · rw [hbe] at h
      simp only [dropBlank, List.filter_cons]
      split
      · simp only [lookupKey, List.lookup, hbe]
        exact ih h
      · exact ih h
    · rw [hbe] at h
      exact Option.noConfusion h

lemma buildUserArgs_shape {name fn ln : PyStr}
    {username status email ircnick locale timezone gpg ssh creation privacy : PyVal}
    {args : List (String × AVal)}
    (h : buildUserArgs name fn ln username status email ircnick locale timezone
      gpg ssh creation privacy = some args) :
    ∃ hd db em sshA ircA locA tzA gpgA sn cs ip,
      args = mkUserArgs fn ln name hd db em sshA ircA locA tzA gpgA sn cs ip := by
  unfold buildUserArgs at h
  rcases h1 : sshField ssh with _ | sshA <;> simp only [h1] at h <;>
    try exact Option.noConfusion h
  rcases h2 : strField ircnick with _ | ircA <;> simp only [h2] at h <;>
    try exact Option.noConfusion h
  rcases h3 : strField locale with _ | locA <;> simp only [h3] at h <;>
    try exact Option.noConfusion h
  rcases h4 : strField timezone with _ | tzA <;> simp only [h4] at h <;>
    try exact Option.noConfusion h
  rcases h5 : gpgField gpg with _ | gpgA <;> simp only [h5] at h <;>
    try exact Option.noConfusion h
  rcases h6 : asStrStrip status with _ | sn <;> simp only [h6] at h <;>
    try exact Option.noConfusion h
  rcases h7 : asCreation creation with _ | cs <;> simp only [h7] at h <;>
    try exact Option.noConfusion h
  simp only [Option.some.injEq] at h
  exact ⟨_, _, _, sshA, ircA, locA, tzA, gpgA, sn, cs, _, h.symm⟩

lemma mkUserArgs_lookup_first (fn ln name hd : PyStr) (db : Bool) (em : PyVal)
    (sshA ircA locA tzA gpgA : AVal) (sn cs : PyStr) (ip : Bool) :
    lookupKey (mkUserArgs fn ln name hd db em sshA ircA locA tzA gpgA sn cs ip)
      "first_name" = some (AVal.av (.pstr fn)) := rfl

lemma mkUserArgs_lookup_last (fn ln name hd : PyStr) (db : Bool) (em : PyVal)
    (sshA ircA locA tzA gpgA : AVal) (sn cs : PyStr) (ip : Bool) :
    lookupKey (mkUserArgs fn ln name hd db em sshA ircA locA tzA gpgA sn cs ip)
      "last_name" = some (AVal.av (.pstr ln)) := rfl

lemma mkUserArgs_lookup_full (fn ln name hd : PyStr) (db : Bool) (em : PyVal)
    (sshA ircA locA tzA gpgA : AVal) (sn cs : PyStr) (ip : Bool) :
    lookupKey (mkUserArgs fn ln name hd db em sshA ircA locA tzA gpgA sn cs ip)
      "full_name" = some (AVal.av (.pstr name)) := rfl

/-- C5: for a source record whose human name is absent, the derived first,
last and full names are the literal unset placeholders, and the update issued
after the user-already-exists signal contains no `first_name`, `last_name` or
`full_name` field — the placeholder pruning (users.py lines 351-357) deletes
all three before the locale/timezone fill and the blank filter, neither of
which reintroduces them. -/
theorem C5_placeholder_names_dropped
    (hn username status email ircnick locale timezone gpg ssh creation
      privacy : PyVal) (showResp : ShowResp) (name fn ln : PyStr)
    (args final : List (String × AVal))
    (hfalsy : pyTruthy hn = false)
    (hderive : deriveName hn = some (name, fn, ln))
    (hbuild : buildUserArgs name fn ln username status email ircnick locale
      timezone gpg ssh creation privacy = some args)
    (hupd : updateCallArgsFrom showResp args = some final) :
    lookupKey final "first_name" = none ∧ lookupKey final "last_name" = none ∧
      lookupKey final "full_name" = none := by
  simp only [deriveName, hfalsy, Bool.false_eq_true, if_false, Option.some.injEq,
    Prod.mk.injEq] at hderive
  obtain ⟨hname, hfn, hln⟩ := hderive
  subst hname
  subst hfn
  subst hln
  obtain ⟨hd, db, em, sshA, ircA, locA, tzA, gpgA, sn, cs, ip, rfl⟩ :=
    buildUserArgs_shape hbuild
  set margs := mkUserArgs "<first-name-unset>".data "<last-name-unset>".data
    "<first-name-unset> <last-name-unset>".data hd db em sshA ircA locA tzA gpgA
    sn cs ip with hmargs
  have hp1 : lookupKey (pruneNames margs) "first_name" = none := by
    unfold pruneNames
    rw [lookupKey_delIfEq_ne _ _ _ _ (by decide),
      lookupKey_delIfEq_ne _ _ _ _ (by decide)]
    exact lookupKey_delIfEq_self_none (mkUserArgs_lookup_first _ _ _ _ _ _ _ _ _ _ _ _ _ _)
      (by decide)
  have hp2 : lookupKey (pruneNames margs) "last_name" = none := by
    unfold pruneNames
    have hlast : lookupKey (delIfEq margs "first_name" "<first-name-unset>".data)
        "last_name" = some (AVal.av (.pstr "<last-name-unset>".data)) := by
      rw [lookupKey_delIfEq_ne _ _ _ _ (by decide)]
      exact mkUserArgs_lookup_last _ _ _ _ _ _ _ _ _ _ _ _ _ _
    rw [lookupKey_delIfEq_ne _ _ _ _ (by decide)]
    exact lookupKey_delIfEq_self_none hlast (by decide)
  have hp3 : lookupKey (pruneNames margs) "full_name" = none := by
    unfold pruneNames
    have hfull : lookupKey (delIfEq (delIfEq margs "first_name"
        "<first-name-unset>".data) "last_name" "<last-name-unset>".data)
        "full_name" =
        some (AVal.av (.pstr "<first-name-unset> <last-name-unset>".data)) := by
      rw [lookupKey_delIfEq_ne _ _ _ _ (by decide),
        lookupKey_delIfEq_ne _ _ _ _ (by decide)]
      exact mkUserArgs_lookup_full _ _ _ _ _ _ _ _ _ _ _ _ _ _
    exact lookupKey_delIfEq_self_none hfull (by decide)
  unfold updateCallArgsFrom at hupd
  rcases hfill : fillLocaleTz showResp (pruneNames margs) with a2 | _ | m | _ <;>
    rw [hfill] at hupd <;> simp only [Option.some.injEq] at hupd
  case proceed =>
    subst hupd
    refine ⟨?_, ?_, ?_⟩ <;>
      refine lookupKey_dropBlank_none ?_
    · rw [lookupKey_fillLocaleTz_ne (by decide) (by decide) hfill]
      exact hp1
    · rw [lookupKey_fillLocaleTz_ne (by decide) (by decide) hfill]
      exact hp2
    · rw [lookupKey_fillLocaleTz_ne (by decide) (by decide) hfill]
      exact hp3
  all_goals exact Option.noConfusion hupd

/-- C5 witness: a record with no human name (`None`), migrated onto an
existing user: the computed update arguments contain none of the three name
fields. -/
theorem C5_placeholder_names_dropped_witness :
    lookupKey ((updateCallArgsFrom (ShowResp.found none none)
        ((buildUserArgs "<first-name-unset> <last-name-unset>".data
          "<first-name-unset>".data "<last-name-unset>".data
          (PyVal.pstr "u".data) (PyVal.pstr "active".data)
          (PyVal.pstr "e@x".data) PyVal.pnone PyVal.pnone PyVal.pnone
          PyVal.pnone PyVal.pnone (PyVal.pstr "c".data)
          (PyVal.pbool false)).getD [])).getD []) "first_name" = none ∧
    lookupKey ((updateCallArgsFrom (ShowResp.found none none)
        ((buildUserArgs "<first-name-unset> <last-name-unset>".data
          "<first-name-unset>".data "<last-name-unset>".data
          (PyVal.pstr "u".data) (PyVal.pstr "active".data)
          (PyVal.pstr "e@x".data) PyVal.pnone PyVal.pnone PyVal.pnone
          PyVal.pnone PyVal.pnone (PyVal.pstr "c".data)
          (PyVal.pbool false)).getD [])).getD []) "last_name" = none ∧
    lookupKey ((updateCallArgsFrom (ShowResp.found none none)
        ((buildUserArgs "<first-name-unset> <last-name-unset>".data
          "<first-name-unset>".data "<last-name-unset>".data
          (PyVal.pstr "u".data) (PyVal.pstr "active".data)
          (PyVal.pstr "e@x".data) PyVal.pnone PyVal.pnone PyVal.pnone
          PyVal.pnone PyVal.pnone (PyVal.pstr "c".data)
          (PyVal.pbool false)).getD [])).getD []) "full_name" = none :=
  C5_placeholder_names_dropped PyVal.pnone (PyVal.pstr "u".data)
    (PyVal.pstr "active".data) (PyVal.pstr "e@x".data) PyVal.pnone PyVal.pnone
    PyVal.pnone PyVal.pnone PyVal.pnone (PyVal.pstr "c".data)
    (PyVal.pbool false) (ShowResp.found none none)
    "<first-name-unset> <last-name-unset>".data "<first-name-unset>".data
    "<last-name-unset>".data
    ((buildUserArgs "<first-name-unset> <last-name-unset>".data
      "<first-name-unset>".data "<last-name-unset>".data (PyVal.pstr "u".data)
      (PyVal.pstr "active".data) (PyVal.pstr "e@x".data) PyVal.pnone
      PyVal.pnone PyVal.pnone PyVal.pnone PyVal.pnone (PyVal.pstr "c".data)
      (PyVal.pbool false)).getD [])
    ((updateCallArgsFrom (ShowResp.found none none)
      ((buildUserArgs "<first-name-unset> <last-name-unset>".data
        "<first-name-unset>".data "<last-name-unset>".data (PyVal.pstr "u".data)
        (PyVal.pstr "active".data) (PyVal.pstr "e@x".data) PyVal.pnone
        PyVal.pnone PyVal.pnone PyVal.pnone PyVal.pnone (PyVal.pstr "c".data)
        (PyVal.pbool false)).getD [])).getD [])
    (by decide) (by decide) (by decide) (by decide)
